import Mathlib

/-!
Shallow embedding of the page-packing engine of flowblurb.py (class PageBuilder
and the functions around it), together with proofs settling the claims about it.

Conventions of the embedding:
* Python floats are modelled as rationals (ℚ); the numeric literals 0.66, 1.2,
  0.99, 1.01 of the source become the exact rationals 66/100, 6/5, 99/100,
  101/100.
* Python `/` raises ZeroDivisionError on a zero divisor; every division of the
  source is therefore modelled through `qdiv?`, and functions that may divide
  return `Except Unit _`, `.error ()` standing for the raised exception.
* `PageBuilder.images` is a Python list popped from its end; we keep it as a
  Lean list in pop order (head = next image popped), so `pop()` is taking the
  head and `append x` is consing `x` on the head.
* The builder attribute `self.incomplete` is threaded explicitly as a `Bool`.
* The `while` loops of `next_page`, `get_pages` and `populate_single_page` are
  written with an explicit fuel argument (outer `Option`, `none` = fuel ran
  out); for the two loops that always terminate a sufficiency lemma shows the
  fuel `length + 1` never runs out, and the wrapper functions use that fuel.
* The `--verbose` tracing branches are omitted (modelled for verbose = off),
  and only the sequential `PageBuilder` is embedded (args.smart = false); all
  claims cite lines of the base class.
-/

/-- Image descriptor: the fields of the `ImageInfo` namedtuple that the packing
engine reads (`name` stands for the identity, `src`/`modified` are never read
by the layout code). -/
structure ImageInfo where
  name : ℕ
  width : ℚ
  height : ℚ
deriving DecidableEq

/-- The `ScaledImageInfo` namedtuple: an image with its scale and page-local
position. -/
structure ScaledImageInfo where
  image : ImageInfo
  scale : ℚ
  x : ℚ
  y : ℚ
deriving DecidableEq

/-- The layout-relevant fields of the parsed argument namespace. -/
structure Args where
  page_width : ℚ
  page_height : ℚ
  top : ℚ
  bottom : ℚ
  left : ℚ
  right : ℚ
  xspace : ℚ
  yspace : ℚ
  image_height : ℚ
  pano_threshold : ℚ
  aspect_threshold : ℚ
  mirror : Bool
  xcenter : Bool
  ycenter : Bool
  xspread : Bool
  yspread : Bool
  scale : Bool
  overfill : Bool
  double : Bool
  double_only : Bool
  odd_only : Bool
  even_only : Bool
  mix_aspect : Bool
  reverse : Bool
  smart : Bool
  random : String
deriving DecidableEq

/-- Checked division: Python `a / b`, which raises ZeroDivisionError when
`b == 0`. -/
def qdiv? (a b : ℚ) : Except Unit ℚ :=
  if b = 0 then .error () else .ok (a / b)

/-- The available page height `self.page_height = args.page_height-(args.top+args.bottom)`
computed in `PageBuilder.__init__`. -/
def availH (args : Args) : ℚ :=
  args.page_height - (args.top + args.bottom)

/-- The sum of the scaled widths of a row (the part of `_row_width` without the
inter-image spacing). -/
def sumSW (row : List ScaledImageInfo) : ℚ :=
  (row.map fun i => i.image.width * i.scale).sum

/-- Embeds `PageBuilder._row_width`: scaled widths plus spacing between
consecutive images. -/
def rowWidthOf (args : Args) (row : List ScaledImageInfo) : ℚ :=
  sumSW row + args.xspace * ((row.length : ℚ) - 1)

/-- Rescale a row uniformly: the list comprehension
`[ScaledImageInfo(image=i.image, scale=i.scale*t, x=0, y=0) for i in row]`
of `_get_row`. -/
def scaleRow (row : List ScaledImageInfo) (t : ℚ) : List ScaledImageInfo :=
  row.map fun i => ⟨i.image, i.scale * t, 0, 0⟩

/-- Embeds `PageBuilder._row_scale(row_width, page_width, row)` (the checked
division of line 102). -/
def rowScale? (args : Args) (pw rw : ℚ) (n : ℕ) : Except Unit ℚ :=
  qdiv? (pw - (n : ℚ) * args.xspace) (rw - (n : ℚ) * args.xspace)

/-- The row-break condition of `_get_row` line 126-127:
`is_pano or row_width + scaledw > page_width or (aspect/last_aspect < 0.66 and
not mix_aspect)`, with Python's left-to-right short-circuiting (the division
`aspect/last_aspect` is only evaluated when the first two disjuncts are
false). -/
def breakTest (args : Args) (pw rw scaledw0 aspect la2 : ℚ) (isPano : Bool) :
    Except Unit Bool :=
  if isPano then .ok true
  else if decide (pw < rw + scaledw0) then .ok true
  else match qdiv? aspect la2 with
       | .error e => .error e
       | .ok r => .ok (decide (r < 66/100) && !args.mix_aspect)

/-- The clamping of a single over-wide or panoramic image, `_get_row` lines
141-146: scale to the full page width, and if the resulting height exceeds
the page height, scale to the full page height instead.  Returns
`(scaledw, scaledh)`. -/
def clampSize (args : Args) (pw w h : ℚ) : Except Unit (ℚ × ℚ) :=
  match qdiv? (h * pw) w with
  | .error e => .error e
  | .ok sh1 =>
    if decide (availH args < sh1) then
      match qdiv? (w * availH args) h with
      | .error e => .error e
      | .ok sw2 => .ok (sw2, availH args)
    else .ok (pw, sh1)

/-- Embeds `PageBuilder._get_row`'s `while` loop.  Arguments mirror the local
variables: the remaining image queue (in pop order), `row`, `row_width`,
`last_aspect`, `first_image`, and the builder's `incomplete` flag.  The result
is `(returned row or None, images left in the queue, incomplete flag)`. -/
def getRowAux (args : Args) (pw : ℚ) :
    List ImageInfo → List ScaledImageInfo → ℚ → ℚ → Option ImageInfo → Bool →
    Except Unit (Option (List ScaledImageInfo) × List ImageInfo × Bool)
  | [], row, rw, _, _, inc =>
    match row with
    | [] => .ok (none, [], inc)
    | _ :: _ =>
      match rowScale? args pw rw row.length with
      | .error e => .error e
      | .ok s =>
        if (6 : ℚ)/5 < s then .ok (some (scaleRow row 1), [], true)
        else .ok (some (scaleRow row s), [], false)
  | img :: rest, row, rw, la, fi, inc =>
    match qdiv? img.width img.height with
    | .error e => .error e
    | .ok aspect =>
      let la2 := if fi.isNone then aspect else la
      let fi2 := if fi.isNone then some img else fi
      match qdiv? (img.width * args.image_height) img.height with
      | .error e => .error e
      | .ok scaledw0 =>
        match breakTest args pw rw scaledw0 aspect la2
                (decide (args.pano_threshold * img.height ≤ img.width)) with
        | .error e => .error e
        | .ok true =>
          match row with
          | _ :: _ =>
            if args.scale then
              match rowScale? args pw rw row.length with
              | .error e => .error e
              | .ok t => .ok (some (scaleRow row t), img :: rest, inc)
            else .ok (some row, img :: rest, inc)
          | [] =>
            match clampSize args pw img.width img.height with
            | .error e => .error e
            | .ok (scaledw1, scaledh1) =>
              match qdiv? scaledh1 img.height with
              | .error e => .error e
              | .ok sc =>
                getRowAux args pw rest (row ++ [⟨img, sc, 0, 0⟩])
                  (rw + scaledw1 + args.xspace) la2 fi2 inc
        | .ok false =>
          match qdiv? args.image_height img.height with
          | .error e => .error e
          | .ok sc =>
            getRowAux args pw rest (row ++ [⟨img, sc, 0, 0⟩])
              (rw + scaledw0 + args.xspace) la2 fi2 inc

/-- Embeds `PageBuilder._get_row(page_width)` acting on the builder state
`(images, incomplete)`. -/
def getRow (args : Args) (pw : ℚ) (imgs : List ImageInfo) (inc : Bool) :
    Except Unit (Option (List ScaledImageInfo) × List ImageInfo × Bool) :=
  getRowAux args pw imgs [] 0 0 none inc

/-- The height contributed by a row: `row[0].image.height * row[0].scale`
(the source only reads the first element; an empty row contributes 0). -/
def rowHeight (row : List ScaledImageInfo) : ℚ :=
  match row with
  | [] => 0
  | i :: _ => i.image.height * i.scale

/-- Embeds `PageBuilder._page_height`: first-image heights plus inter-row
spacing (for an empty slice this is `-yspace`, exactly as in Python). -/
def pageHeightOfRows (args : Args) (rows : List (List ScaledImageInfo)) : ℚ :=
  (rows.map rowHeight).sum + args.yspace * ((rows.length : ℚ) - 1)

/-- Embeds `PageBuilder._calc_y_position(rows, first)`, returning `(y, yspace)`. -/
def calcYPosition (args : Args) (rows : List (List ScaledImageInfo)) (first : Bool) : ℚ × ℚ :=
  let cur := pageHeightOfRows args rows
  let y := args.top
  let ys := args.yspace
  if args.yspread && decide (1 < rows.length) && decide (cur < availH args) then
    (y, ys + (availH args - cur) / ((rows.length : ℚ) - 1))
  else if args.ycenter then
    if args.overfill then
      if !first then
        if decide (cur < availH args) then
          (y - (pageHeightOfRows args (rows.take 1) * (66/100) + args.yspace), ys)
        else
          (y + (availH args - pageHeightOfRows args ((rows.drop 1).dropLast)) / 2
             - (pageHeightOfRows args (rows.take 1) + args.yspace), ys)
      else (y, ys)
    else (y + (availH args - cur) / 2, ys)
  else (y, ys)

/-- Embeds `PageBuilder._unget_all_row` (= `_unget_row` on the sequential
builder): the images of the row return to the head of the queue, preserving
their relative order. -/
def ungetAll (row : List ScaledImageInfo) (imgs : List ImageInfo) : List ImageInfo :=
  (row.map fun i => i.image) ++ imgs

/-- The inner `for img in row` loop of `_generate_page`: place images at
successive x positions. -/
def placeImgs (x xspace y : ℚ) : List ScaledImageInfo → List ScaledImageInfo
  | [] => []
  | img :: rest =>
    ⟨img.image, img.scale, x, y⟩ :: placeImgs (x + img.image.width * img.scale + xspace) xspace y rest

/-- The outer `for row in rows` loop of `_generate_page`. -/
def placeRows (args : Args) (pw : ℚ) (pageno : ℤ) (ys : ℚ) :
    ℚ → List (List ScaledImageInfo) → List ScaledImageInfo
  | _, [] => []
  | y, row :: rest =>
    let x0 := if args.mirror && decide (pageno % 2 = 0) then args.right else args.left
    let rw := rowWidthOf args row
    let xspace' := if args.xspread && decide (1 < row.length) then
        args.xspace + (pw - rw) / ((row.length : ℚ) - 1)
      else args.xspace
    let x1 := if args.xspread && decide (1 < row.length) then x0
      else if args.xcenter then x0 + (pw - rw) / 2
      else if args.mirror && decide (pageno % 2 = 1) then x0 + (pw - rw)
      else x0
    placeImgs x1 xspace' y row ++ placeRows args pw pageno ys (y + rowHeight row + ys) rest

/-- Embeds `PageBuilder._generate_page(page_width, rows, pageno, first, last)`.
Besides the placements it returns the image queue, to which the last two rows
are pushed back in the overfill case; indexing `rows[-2]` on a page of fewer
than two rows raises in Python, hence the `Except`. -/
def generatePage (args : Args) (pw : ℚ) (rows : List (List ScaledImageInfo))
    (pageno : ℤ) (first : Bool) (imgs : List ImageInfo) :
    Except Unit (List ScaledImageInfo × List ImageInfo) :=
  let yys := calcYPosition args rows first
  match (if args.overfill && decide (availH args < pageHeightOfRows args rows) then
           match rows.getLast?, rows.dropLast.getLast? with
           | some r1, some r2 => .ok (ungetAll r2 (ungetAll r1 imgs))
           | _, _ => .error ()
         else .ok imgs : Except Unit (List ImageInfo)) with
  | .error e => .error e
  | .ok imgs2 => .ok (placeRows args pw pageno yys.2 yys.1 rows, imgs2)

/-- Embeds the `while True` loop of `PageBuilder.next_page`, with explicit
fuel.  State: image queue, incomplete flag, accumulated `height`, and
`page_rows`.  The result carries `(page_rows, height, images, incomplete,
last)`. -/
def nextPageAux (args : Args) (pw : ℚ) (first : Bool) :
    ℕ → List ImageInfo → Bool → ℚ → List (List ScaledImageInfo) →
    Option (Except Unit (List (List ScaledImageInfo) × ℚ × List ImageInfo × Bool × Bool))
  | 0, _, _, _, _ => none
  | fuel+1, imgs, inc, height, pageRows =>
    match getRow args pw imgs inc with
    | .error e => some (.error e)
    | .ok (none, imgs2, inc2) => some (.ok (pageRows, height, imgs2, inc2, true))
    | .ok (some r, imgs2, inc2) =>
      let rh := rowHeight r
      if !pageRows.isEmpty && decide (availH args < rh + height) then
        if args.overfill then some (.ok (pageRows ++ [r], height, imgs2, inc2, false))
        else some (.ok (pageRows, height, ungetAll r imgs2, inc2, false))
      else
        let height' := if !pageRows.isEmpty || !args.overfill || first then
            height + rh + args.yspace
          else height
        nextPageAux args pw first fuel imgs2 inc2 height' (pageRows ++ [r])

/-- Embeds `PageBuilder.next_page(page_width, pageno, first)`: run the loop
(the queue length plus one is always enough fuel, see
`nextPageAux_fuel_sufficient`), then either generate the page or return
`None`. -/
def nextPage (args : Args) (pw : ℚ) (pageno : ℤ) (first : Bool)
    (imgs : List ImageInfo) (inc : Bool) :
    Except Unit (Option (List ScaledImageInfo) × List ImageInfo × Bool) :=
  match nextPageAux args pw first (imgs.length + 1) imgs inc 0 [] with
  | none => .error ()
  | some (.error e) => .error e
  | some (.ok (rows, height, imgs2, inc2, _last)) =>
    if height ≠ 0 then
      match generatePage args pw rows pageno first imgs2 with
      | .error e => .error e
      | .ok (pg, imgs3) => .ok (some pg, imgs3, inc2)
    else .ok (none, imgs2, inc2)

/-- One yielded element of the `get_pages` generator:
`(populated, pageno, double)`. -/
structure PageOut where
  placements : List ScaledImageInfo
  pageno : ℤ
  double : Bool
deriving DecidableEq

/-- The double-spread test of `get_pages` (lines 204-213): returns
`(double, page_width, next index)` given the index `i1` that already points
past `pageno`. -/
def stepDouble (args : Args) (pagenos : List ℤ) (pageno : ℤ) (i1 : ℕ) : Bool × ℚ × ℕ :=
  if args.double && decide (pageno % 2 = 0) && decide (pagenos[i1]? = some (pageno + 1)) then
    (true,
     (if args.mirror then (args.page_width - args.right) * 2
      else args.page_width * 2 - (args.left + args.right)),
     i1 + 1)
  else
    (false, args.page_width - (args.left + args.right), i1)

/-- The guards of `get_pages` lines 214-217: `next_page` is called exactly when
`double or not double_only` and the odd/even-only filters let `pageno`
through. -/
def stepAllowed (args : Args) (pageno : ℤ) (double : Bool) : Bool :=
  (double || !args.double_only) &&
  ((decide (pageno % 2 = 0) && args.even_only) ||
   (decide (pageno % 2 = 1) && args.odd_only) ||
   !(args.odd_only || args.even_only))

/-- Embeds the `while i < len(pagenos)` loop of `PageBuilder.get_pages`, with
explicit fuel.  The mutable Python list `pagenos` (truncated in place by
`del pagenos[0:i]`) is threaded as a value; the result returns its final
contents together with the produced pages and the final builder state. -/
def getPagesAux (args : Args) :
    ℕ → List ImageInfo → Bool → Bool → List ℤ → ℕ → List PageOut →
    Option (Except Unit (List PageOut × List ℤ × List ImageInfo × Bool))
  | 0, _, _, _, _, _, _ => none
  | fuel+1, imgs, inc, first, pagenos, i, acc =>
    match pagenos[i]? with
    | none => some (.ok (acc, pagenos, imgs, inc))
    | some pageno =>
      let t := stepDouble args pagenos pageno (i + 1)
      if stepAllowed args pageno t.1 then
        match nextPage args t.2.1 pageno first imgs inc with
        | .error e => some (.error e)
        | .ok (some pg, imgs2, inc2) =>
          getPagesAux args fuel imgs2 inc2 false (pagenos.drop t.2.2) 0 (acc ++ [⟨pg, pageno, t.1⟩])
        | .ok (none, imgs2, inc2) => some (.ok (acc, pagenos, imgs2, inc2))
      else
        getPagesAux args fuel imgs inc first pagenos t.2.2 acc

/-- Embeds `PageBuilder.get_pages(pagenos)` run to exhaustion, starting from
builder state `(imgs, inc)` (fuel `pagenos.length + 1` always suffices, see
`getPagesAux_fuel_sufficient`). -/
def getPages (args : Args) (imgs : List ImageInfo) (inc : Bool) (pagenos : List ℤ) :
    Except Unit (List PageOut × List ℤ × List ImageInfo × Bool) :=
  match getPagesAux args (pagenos.length + 1) imgs inc true pagenos 0 [] with
  | none => .error ()
  | some r => r

/-- Embeds `PageBuilder.get_page_count(pagenos)`: runs `get_pages` on a copy
`pagenos[:]` of the list (so the result drops the final list) and returns the
page count together with the final `incomplete` flag. -/
def getPageCount (args : Args) (imgs : List ImageInfo) (inc : Bool) (pagenos : List ℤ) :
    Except Unit (ℕ × Bool) :=
  match getPages args imgs inc pagenos with
  | .error e => .error e
  | .ok (pgs, _, _, inc2) => .ok (pgs.length, inc2)

/-- Embeds `make_builder` for the sequential case (`args.smart` false): the
builder reverses `images` when `--reverse` is given; `PageBuilder.__init__`
then stores `images[::-1]`, which in our pop-order convention is the list
itself, with `incomplete` initialised to `True`. -/
def initImages (args : Args) (images : List ImageInfo) : List ImageInfo :=
  if args.reverse then images.reverse else images

/-- Embeds `populate_pages(args, images, pagenos)` (sequential builder). -/
def populatePages (args : Args) (images : List ImageInfo) (pagenos : List ℤ) :
    Except Unit (List PageOut × List ℤ × List ImageInfo × Bool) :=
  getPages args (initImages args images) true pagenos

/-- Embeds the `_try_it` closure of `populate_single_page`: a fresh builder is
made from the (unconsumed) image list and `get_page_count` is called on a copy
of `pagenos`. -/
def tryIt (args : Args) (images : List ImageInfo) (pagenos : List ℤ) :
    Except Unit (ℕ × Bool) :=
  getPageCount args (initImages args images) true pagenos

/-- The coarse shrinking loop of `populate_single_page`:
`while page_count > count: args.image_height *= 0.99` (fuelled; the source has
no iteration cap). -/
def coarseDown (args : Args) (count : ℕ) (images : List ImageInfo) (pagenos : List ℤ) :
    ℕ → ℚ → ℕ → Bool → Option (Except Unit (ℚ × ℕ × Bool))
  | 0, _, _, _ => none
  | fuel+1, h, pc, inc =>
    if count < pc then
      let h2 := h * (99/100)
      match tryIt { args with image_height := h2 } images pagenos with
      | .error e => some (.error e)
      | .ok (pc2, inc2) => coarseDown args count images pagenos fuel h2 pc2 inc2
    else some (.ok (h, pc, inc))

/-- The coarse growing loop of `populate_single_page`:
`while page_count < count: args.image_height *= 1.01` (fuelled; no cap in the
source). -/
def coarseUp (args : Args) (count : ℕ) (images : List ImageInfo) (pagenos : List ℤ) :
    ℕ → ℚ → ℕ → Bool → Option (Except Unit (ℚ × ℕ × Bool))
  | 0, _, _, _ => none
  | fuel+1, h, pc, inc =>
    if pc < count then
      let h2 := h * (101/100)
      match tryIt { args with image_height := h2 } images pagenos with
      | .error e => some (.error e)
      | .ok (pc2, inc2) => coarseUp args count images pagenos fuel h2 pc2 inc2
    else some (.ok (h, pc, inc))

/-- The fine loop of `populate_single_page`:
`while page_count <= count: args.image_height += 1`, remembering `best_height`
and `perfect_height` (fuelled; no cap in the source).  Returns
`(image_height, best, perfect, incomplete)`. -/
def fineLoop (args : Args) (count : ℕ) (images : List ImageInfo) (pagenos : List ℤ) :
    ℕ → ℚ → ℚ → ℚ → ℕ → Bool → Option (Except Unit (ℚ × ℚ × ℚ × Bool))
  | 0, _, _, _, _, _ => none
  | fuel+1, h, best, perfect, pc, inc =>
    if pc ≤ count then
      let h2 := h + 1
      match tryIt { args with image_height := h2 } images pagenos with
      | .error e => some (.error e)
      | .ok (pc2, inc2) =>
        let best2 := if pc2 ≤ count then h2 else best
        let perfect2 := if pc2 = count && !inc2 then h2 else perfect
        fineLoop args count images pagenos fuel h2 best2 perfect2 pc2 inc2
    else some (.ok (h, best, perfect, inc))

/-- Embeds the `while True` search loop of `populate_single_page(args, count,
images, pagenos)` (lines 905-937), returning the tuned argument namespace and
the final incomplete flag.  Every loop shares the fuel parameter; the source
itself has no iteration budget at all. -/
def optSearch (count : ℕ) (images : List ImageInfo) (pagenos : List ℤ) :
    ℕ → Args → Option (Except Unit (Args × Bool))
  | 0, _ => none
  | fuel+1, args =>
    match tryIt args images pagenos with
    | .error e => some (.error e)
    | .ok (pc, inc) =>
      if pc = 0 then some (.ok (args, inc))
      else
        match (if count < pc then coarseDown args count images pagenos fuel args.image_height pc inc
               else match coarseUp args count images pagenos fuel args.image_height pc inc with
                    | none => none
                    | some (.error e) => some (.error e)
                    | some (.ok (h, pc2, inc2)) => some (.ok (h / (101/100), pc2, inc2))) with
        | none => none
        | some (.error e) => some (.error e)
        | some (.ok (h1, pc1, inc1)) =>
          match fineLoop args count images pagenos fuel h1 h1 0 pc1 inc1 with
          | none => none
          | some (.error e) => some (.error e)
          | some (.ok (_, best, perfect, inc2)) =>
            let hFinal := if perfect ≠ 0 then perfect else best
            let incF := if perfect ≠ 0 then false else inc2
            if !incF then some (.ok ({ args with image_height := hFinal }, incF))
            else if args.smart && decide (args.random ≠ "") then
              optSearch count images pagenos fuel
                { args with image_height := hFinal, random := String.mk args.random.data.dropLast }
            else some (.ok ({ args with image_height := hFinal }, incF))

deriving instance DecidableEq for Except

/-- On a successful `None` return, `_get_row` was called with an empty queue,
built no row, and left the `incomplete` flag untouched. -/
theorem getRowAux_none (args : Args) (pw : ℚ) (imgs : List ImageInfo) :
    ∀ (row : List ScaledImageInfo) (rw la : ℚ) (fi : Option ImageInfo) (inc : Bool)
      {imgs2 : List ImageInfo} {inc2 : Bool},
      getRowAux args pw imgs row rw la fi inc = .ok (none, imgs2, inc2) →
      imgs = [] ∧ row = [] ∧ imgs2 = [] ∧ inc2 = inc := by
  induction imgs with
  | nil =>
    intro row rw la fi inc imgs2 inc2 hres
    cases row with
    | nil => simp [getRowAux] at hres; simp [hres]
    | cons a l =>
      rw [getRowAux] at hres
      cases hq : rowScale? args pw rw (a :: l).length <;> simp only [hq] at hres
      case error => cases hres
      case ok s => split at hres <;> simp at hres
  | cons img rest ih =>
    intro row rw la fi inc imgs2 inc2 hres
    rw [getRowAux] at hres
    cases hq1 : qdiv? img.width img.height <;> simp only [hq1] at hres
    case error => cases hres
    case ok aspect =>
    cases hq2 : qdiv? (img.width * args.image_height) img.height <;> simp only [hq2] at hres
    case error => cases hres
    case ok scaledw0 =>
    cases hq3 : breakTest args pw rw scaledw0 aspect
        (if fi.isNone then aspect else la)
        (decide (args.pano_threshold * img.height ≤ img.width)) <;> simp only [hq3] at hres
    case error => cases hres
    case ok b =>
    cases b with
    | false =>
      cases hq4 : qdiv? args.image_height img.height <;> simp only [hq4] at hres
      case error => cases hres
      case ok sc => exact absurd (ih _ _ _ _ _ hres).2.1 (by simp)
    | true =>
      cases row with
      | cons a l =>
        simp only at hres
        split at hres
        · cases hq5 : rowScale? args pw rw (a :: l).length <;> simp only [hq5] at hres
          · cases hres
          · cases hres
        · cases hres
      | nil =>
        cases hq5 : clampSize args pw img.width img.height <;> simp only [hq5] at hres
        case error => cases hres
        case ok p =>
        cases hq6 : qdiv? p.2 img.height <;> simp only [hq6] at hres
        case error => cases hres
        case ok sc => exact absurd (ih _ _ _ _ _ hres).2.1 (by simp)

/-- Rescaling a row does not change the underlying images. -/
theorem scaleRow_map_image (row : List ScaledImageInfo) (t : ℚ) :
    (scaleRow row t).map (fun i => i.image) = row.map (fun i => i.image) := by
  simp [scaleRow, List.map_map]

/-- When `_get_row` returns a row, that row is nonempty, and the images of the
returned row followed by the images left in the queue are exactly the row
prefix it was called with followed by the images it was handed: no image is
lost, duplicated, or reordered. -/
theorem getRowAux_some (args : Args) (pw : ℚ) (imgs : List ImageInfo) :
    ∀ (row : List ScaledImageInfo) (rw la : ℚ) (fi : Option ImageInfo) (inc : Bool)
      {r : List ScaledImageInfo} {imgs2 : List ImageInfo} {inc2 : Bool},
      getRowAux args pw imgs row rw la fi inc = .ok (some r, imgs2, inc2) →
      r ≠ [] ∧ r.map (fun i => i.image) ++ imgs2 = row.map (fun i => i.image) ++ imgs := by
  induction imgs with
  | nil =>
    intro row rw la fi inc r imgs2 inc2 hres
    cases row with
    | nil => simp [getRowAux] at hres
    | cons a l =>
      rw [getRowAux] at hres
      cases hq : rowScale? args pw rw (a :: l).length <;> simp only [hq] at hres
      case error => cases hres
      case ok s =>
        split at hres <;>
          (simp only [Except.ok.injEq, Prod.mk.injEq, Option.some.injEq] at hres
           obtain ⟨h1, h2, h3⟩ := hres
           subst h1 h2
           simp [scaleRow_map_image, scaleRow])
  | cons img rest ih =>
    intro row rw la fi inc r imgs2 inc2 hres
    rw [getRowAux] at hres
    cases hq1 : qdiv? img.width img.height <;> simp only [hq1] at hres
    case error => cases hres
    case ok aspect =>
    cases hq2 : qdiv? (img.width * args.image_height) img.height <;> simp only [hq2] at hres
    case error => cases hres
    case ok scaledw0 =>
    cases hq3 : breakTest args pw rw scaledw0 aspect
        (if fi.isNone then aspect else la)
        (decide (args.pano_threshold * img.height ≤ img.width)) <;> simp only [hq3] at hres
    case error => cases hres
    case ok b =>
    cases b with
    | false =>
      cases hq4 : qdiv? args.image_height img.height <;> simp only [hq4] at hres
      case error => cases hres
      case ok sc =>
        obtain ⟨hne, heq⟩ := ih _ _ _ _ _ hres
        refine ⟨hne, ?_⟩
        rw [heq]
        simp
    | true =>
      cases row with
      | cons a l =>
        simp only at hres
        split at hres
        · cases hq5 : rowScale? args pw rw (a :: l).length <;> simp only [hq5] at hres
          · cases hres
          · simp only [Except.ok.injEq, Prod.mk.injEq, Option.some.injEq] at hres
            obtain ⟨h1, h2, h3⟩ := hres
            subst h1 h2
            simp [scaleRow_map_image, scaleRow]
        · simp only [Except.ok.injEq, Prod.mk.injEq, Option.some.injEq] at hres
          obtain ⟨h1, h2, h3⟩ := hres
          subst h1 h2
          simp
      | nil =>
        cases hq5 : clampSize args pw img.width img.height <;> simp only [hq5] at hres
        case error => cases hres
        case ok p =>
        cases hq6 : qdiv? p.2 img.height <;> simp only [hq6] at hres
        case error => cases hres
        case ok sc =>
          obtain ⟨hne, heq⟩ := ih _ _ _ _ _ hres
          refine ⟨hne, ?_⟩
          rw [heq]
          simp

/-- A successful row strictly shrinks the image queue (the loop of `next_page`
therefore terminates). -/
theorem getRow_shrink (args : Args) (pw : ℚ) (imgs : List ImageInfo) (inc : Bool)
    {r : List ScaledImageInfo} {imgs2 : List ImageInfo} {inc2 : Bool}
    (hres : getRow args pw imgs inc = .ok (some r, imgs2, inc2)) :
    imgs2.length < imgs.length := by
  obtain ⟨hne, heq⟩ := getRowAux_some args pw imgs [] 0 0 none inc hres
  have hlen : r.length + imgs2.length = imgs.length := by
    have h2 := congrArg List.length heq
    simpa using h2
  cases r with
  | nil => exact absurd rfl hne
  | cons a l => simp at hlen; omega

/-- The row and leftover queue computed by `_get_row` do not depend on the
incoming value of the builder's `incomplete` flag (the loop only writes it). -/
theorem getRowAux_inc_indep (args : Args) (pw : ℚ) (imgs : List ImageInfo) :
    ∀ (row : List ScaledImageInfo) (rw la : ℚ) (fi : Option ImageInfo) (inc1 inc2 : Bool),
      (getRowAux args pw imgs row rw la fi inc1).map (fun t => (t.1, t.2.1)) =
      (getRowAux args pw imgs row rw la fi inc2).map (fun t => (t.1, t.2.1)) := by
  induction imgs with
  | nil =>
    intro row rw la fi inc1 inc2
    cases row <;> rw [getRowAux, getRowAux]
    · rfl
  | cons img rest ih =>
    intro row rw la fi inc1 inc2
    rw [getRowAux, getRowAux]
    cases hq1 : qdiv? img.width img.height
    · rfl
    · rename_i aspect
      try dsimp only
      cases hq2 : qdiv? (img.width * args.image_height) img.height
      · rfl
      · rename_i scaledw0
        try dsimp only
        cases hq3 : breakTest args pw rw scaledw0 aspect (if fi.isNone then aspect else la)
            (decide (args.pano_threshold * img.height ≤ img.width))
        · rfl
        · rename_i b
          try dsimp only
          cases b
          · cases hq4 : qdiv? args.image_height img.height
            · rfl
            · exact ih _ _ _ _ _ _
          · cases row
            · cases hq5 : clampSize args pw img.width img.height
              · rfl
              · rename_i p
                obtain ⟨sw1, sh1⟩ := p
                try dsimp only
                cases hq6 : qdiv? sh1 img.height
                · rfl
                · exact ih _ _ _ _ _ _
            · rename_i a l
              cases hsc : args.scale
              · rfl
              · try dsimp only
                cases hq5 : rowScale? args pw rw (a :: l).length
                · rfl
                · rfl

/-- Images with positive pixel dimensions. -/
def PosImgs (imgs : List ImageInfo) : Prop :=
  ∀ i ∈ imgs, 0 < i.width ∧ 0 < i.height

/-- Scaled images with positive dimensions and positive scale. -/
def PosRow (row : List ScaledImageInfo) : Prop :=
  ∀ e ∈ row, 0 < e.image.width ∧ 0 < e.image.height ∧ 0 < e.scale

instance (imgs : List ImageInfo) : Decidable (PosImgs imgs) := by
  unfold PosImgs; infer_instance

instance (row : List ScaledImageInfo) : Decidable (PosRow row) := by
  unfold PosRow; infer_instance

theorem qdiv?_ok (a b : ℚ) (hb : b ≠ 0) : qdiv? a b = .ok (a / b) := by
  simp [qdiv?, hb]

theorem sumSW_pos {row : List ScaledImageInfo} (hrow : PosRow row) (hne : row ≠ []) :
    0 < sumSW row := by
  cases row with
  | nil => exact absurd rfl hne
  | cons a l =>
    have ha := hrow a (by simp)
    have h1 : 0 < a.image.width * a.scale := mul_pos ha.1 ha.2.2
    have h2 : 0 ≤ (l.map fun i => i.image.width * i.scale).sum := by
      apply List.sum_nonneg
      intro x hx
      obtain ⟨e, he, rfl⟩ := List.mem_map.mp hx
      have hp := hrow e (by simp [he])
      exact le_of_lt (mul_pos hp.1 hp.2.2)
    simp only [sumSW, List.map_cons, List.sum_cons]
    linarith

theorem sumSW_append (row : List ScaledImageInfo) (e : ScaledImageInfo) :
    sumSW (row ++ [e]) = sumSW row + e.image.width * e.scale := by
  simp [sumSW]

theorem sumSW_scaleRow (row : List ScaledImageInfo) (t : ℚ) :
    sumSW (scaleRow row t) = sumSW row * t := by
  induction row with
  | nil => simp [sumSW, scaleRow]
  | cons a l ih =>
    simp only [sumSW, scaleRow, List.map_cons, List.sum_cons, List.map_map] at ih ⊢
    rw [ih]
    ring

theorem scaleRow_length (row : List ScaledImageInfo) (t : ℚ) :
    (scaleRow row t).length = row.length := by
  simp [scaleRow]

theorem posRow_scaleRow {row : List ScaledImageInfo} (hrow : PosRow row) {t : ℚ}
    (ht : 0 < t) : PosRow (scaleRow row t) := by
  intro e he
  simp only [scaleRow, List.mem_map] at he
  obtain ⟨x, hx, rfl⟩ := he
  have := hrow x hx
  exact ⟨this.1, this.2.1, mul_pos this.2.2 ht⟩

theorem rowWidthOf_scaleRow (args : Args) (row : List ScaledImageInfo) (t : ℚ) :
    rowWidthOf args (scaleRow row t) = sumSW row * t + args.xspace * ((row.length : ℚ) - 1) := by
  rw [rowWidthOf, sumSW_scaleRow, scaleRow_length]

/-- The specification of `clampSize` under positive inputs: it succeeds, both
components are positive, the width component is exactly `width * scale` for
the scale `scaledh / h` it induces, and the width fits the page. -/
theorem clampSize_spec (args : Args) (pw w h : ℚ) (hpw : 0 < pw)
    (hah : 0 < availH args) (hw : 0 < w) (hh : 0 < h) :
    ∃ sw sh, clampSize args pw w h = .ok (sw, sh) ∧ 0 < sw ∧ 0 < sh ∧
      w * (sh / h) = sw ∧ sw ≤ pw := by
  rw [clampSize, qdiv?_ok _ _ (ne_of_gt hw)]
  dsimp only
  split
  · rename_i hc
    simp only [decide_eq_true_eq] at hc
    rw [qdiv?_ok _ _ (ne_of_gt hh)]
    refine ⟨w * availH args / h, availH args, rfl, by positivity, hah, by field_simp, ?_⟩
    have h1 : w * availH args < w * (h * pw / w) := by
      exact mul_lt_mul_of_pos_left hc hw
    have h2 : w * (h * pw / w) = h * pw := by
      field_simp
    rw [h2] at h1
    rw [div_le_iff hh]
    nlinarith
  · rename_i hc
    simp only [decide_eq_true_eq, not_lt] at hc
    refine ⟨pw, h * pw / w, rfl, hpw, by positivity, ?_, le_refl pw⟩
    field_simp
    ring

/-- The specification of `breakTest` when the reference aspect is nonzero: it
never raises. -/
theorem breakTest_ok (args : Args) (pw rw scaledw0 aspect la2 : ℚ) (p : Bool)
    (hla : la2 ≠ 0) : ∃ b, breakTest args pw rw scaledw0 aspect la2 p = .ok b := by
  rw [breakTest]
  split
  · exact ⟨true, rfl⟩
  · split
    · exact ⟨true, rfl⟩
    · rw [qdiv?_ok _ _ hla]
      exact ⟨_, rfl⟩

/-- Side conditions on breakTest's `false` answer: appending was allowed, so
the accumulated width plus the incoming preferred width fits the page. -/
theorem breakTest_false (args : Args) (pw rw scaledw0 aspect la2 : ℚ) (p : Bool)
    (hres : breakTest args pw rw scaledw0 aspect la2 p = .ok false) :
    rw + scaledw0 ≤ pw := by
  rw [breakTest] at hres
  split at hres
  · simp at hres
  · split at hres
    · simp at hres
    · rename_i h1 h2
      simp only [decide_eq_true_eq] at h2
      exact not_lt.mp (by simpa using h2)

/-- Master invariant lemma for `_get_row`'s loop: under positive page
dimensions, positive target height and positive image dimensions it never
raises, and every row it returns satisfies (a) the row-width bound
`sum of scaled widths + spacing*(n-1) ≤ page_width` whenever the row was
closed by a row break (equivalently: the queue is still nonempty), and
(b) all its scales are positive when the horizontal spacing is zero. -/
theorem getRowAux_master (args : Args) (pw : ℚ) (hpw : 0 < pw) (hah : 0 < availH args)
    (hih : 0 < args.image_height) (hxs : 0 ≤ args.xspace) (imgs : List ImageInfo) :
    ∀ (row : List ScaledImageInfo) (rw la : ℚ) (fi : Option ImageInfo) (inc : Bool),
      PosImgs imgs → PosRow row →
      rw = sumSW row + (row.length : ℚ) * args.xspace →
      (row ≠ [] → sumSW row + ((row.length : ℚ) - 1) * args.xspace ≤ pw) →
      (∀ f, fi = some f → 0 < la) →
      ∃ t, getRowAux args pw imgs row rw la fi inc = .ok t ∧
        ∀ r imgs2 inc2, t = (some r, imgs2, inc2) →
          (imgs2 ≠ [] → rowWidthOf args r ≤ pw) ∧
          (args.xspace = 0 → PosRow r) := by
  induction imgs with
  | nil =>
    intro row rw la fi inc hpi hpr hrw hbound hla
    cases row with
    | nil =>
      refine ⟨(none, [], inc), by rw [getRowAux], ?_⟩
      intro r imgs2 inc2 ht
      simp at ht
    | cons a l =>
      have hS : 0 < sumSW (a :: l) := sumSW_pos hpr (by simp)
      have hden : rw - ((a :: l).length : ℚ) * args.xspace = sumSW (a :: l) := by
        rw [hrw]; ring
      rw [getRowAux, rowScale?, hden, qdiv?_ok _ _ (ne_of_gt hS)]
      try dsimp only
      split
      · refine ⟨_, rfl, ?_⟩
        intro r imgs2 inc2 ht
        simp only [Prod.mk.injEq, Option.some.injEq] at ht
        obtain ⟨h1, h2, h3⟩ := ht
        subst h1; subst h2
        refine ⟨fun hne => absurd rfl hne, fun hxs0 => posRow_scaleRow hpr one_pos⟩
      · refine ⟨_, rfl, ?_⟩
        intro r imgs2 inc2 ht
        simp only [Prod.mk.injEq, Option.some.injEq] at ht
        obtain ⟨h1, h2, h3⟩ := ht
        subst h1; subst h2
        refine ⟨fun hne => absurd rfl hne, fun hxs0 => ?_⟩
        rw [hxs0]
        simp only [mul_zero, sub_zero]
        exact posRow_scaleRow hpr (div_pos hpw hS)
  | cons img rest ih =>
    intro row rw la fi inc hpi hpr hrw hbound hla
    have hwh := hpi img (by simp)
    have hw' := hwh.1
    have hh' := hwh.2
    have hpirest : PosImgs rest := fun i hi => hpi i (by simp [hi])
    rw [getRowAux, qdiv?_ok img.width img.height (ne_of_gt hh')]
    try dsimp only
    rw [qdiv?_ok (img.width * args.image_height) img.height (ne_of_gt hh')]
    try dsimp only
    have hla2 : 0 < (if fi.isNone then img.width / img.height else la) := by
      cases fi with
      | none => simpa using div_pos hw' hh'
      | some f => simpa using hla f rfl
    obtain ⟨b, hb⟩ := breakTest_ok args pw rw (img.width * args.image_height / img.height)
      (img.width / img.height) (if fi.isNone then img.width / img.height else la)
      (decide (args.pano_threshold * img.height ≤ img.width)) (ne_of_gt hla2)
    rw [hb]
    have hla' : ∀ f, (if fi.isNone then some img else fi) = some f →
        0 < (if fi.isNone then img.width / img.height else la) := fun f _ => hla2
    cases b with
    | false =>
      rw [qdiv?_ok args.image_height img.height (ne_of_gt hh')]
      try dsimp only
      have hfits := breakTest_false args pw rw _ _ _ _ hb
      refine ih _ _ _ _ inc hpirest ?_ ?_ ?_ hla'
      · intro e he
        rcases List.mem_append.mp he with h1 | h1
        · exact hpr e h1
        · simp only [List.mem_singleton] at h1
          subst h1
          exact ⟨hw', hh', div_pos hih hh'⟩
      · simp only [sumSW_append, List.length_append, List.length_cons, List.length_nil]
        push_cast
        rw [hrw, mul_div_assoc]
        ring
      · intro _
        simp only [sumSW_append, List.length_append, List.length_cons, List.length_nil]
        push_cast
        rw [mul_div_assoc] at hfits
        have : sumSW row + img.width * (args.image_height / img.height) ≤ pw - (row.length : ℚ) * args.xspace := by
          rw [hrw] at hfits
          linarith
        nlinarith [hxs]
    | true =>
      cases row with
      | cons a l =>
        try dsimp only
        cases hsc : args.scale with
        | false =>
          simp only [hsc, Bool.false_eq_true, if_false]
          refine ⟨_, rfl, ?_⟩
          intro r imgs2 inc2 ht
          simp only [Prod.mk.injEq, Option.some.injEq] at ht
          obtain ⟨h1, h2, h3⟩ := ht
          subst h1; subst h2
          refine ⟨fun _ => ?_, fun _ => hpr⟩
          have hb2 := hbound (by simp)
          simpa [rowWidthOf, mul_comm] using hb2
        | true =>
          simp only [hsc, if_true]
          have hS : 0 < sumSW (a :: l) := sumSW_pos hpr (by simp)
          have hden : rw - ((a :: l).length : ℚ) * args.xspace = sumSW (a :: l) := by
            rw [hrw]; ring
          rw [rowScale?, hden, qdiv?_ok _ _ (ne_of_gt hS)]
          refine ⟨_, rfl, ?_⟩
          intro r imgs2 inc2 ht
          simp only [Prod.mk.injEq, Option.some.injEq] at ht
          obtain ⟨h1, h2, h3⟩ := ht
          subst h1; subst h2
          constructor
          · intro _
            rw [rowWidthOf_scaleRow, mul_comm, div_mul_cancel₀ _ (ne_of_gt hS)]
            push_cast
            ring_nf
            nlinarith [hxs]
          · intro hxs0
            rw [hxs0]
            simp only [mul_zero, sub_zero]
            exact posRow_scaleRow hpr (div_pos hpw hS)
      | nil =>
        obtain ⟨sw, sh, hcl, hsw, hsh, hwsc, hswle⟩ :=
          clampSize_spec args pw img.width img.height hpw hah hw' hh'
        rw [hcl]
        try dsimp only
        rw [qdiv?_ok sh img.height (ne_of_gt hh')]
        try dsimp only
        have hrw0 : rw = 0 := by simpa [sumSW] using hrw
        refine ih _ _ _ _ inc hpirest ?_ ?_ ?_ hla'
        · intro e he
          simp only [List.nil_append, List.mem_singleton] at he
          subst he
          exact ⟨hw', hh', div_pos hsh hh'⟩
        · simp only [List.nil_append, sumSW, List.map_cons, List.map_nil, List.sum_cons,
            List.sum_nil, List.length_cons, List.length_nil]
          push_cast
          rw [hrw0, hwsc]
          ring
        · intro _
          simp only [List.nil_append, sumSW, List.map_cons, List.map_nil, List.sum_cons,
            List.sum_nil, List.length_cons, List.length_nil]
          push_cast
          rw [hwsc]
          linarith

/-- Specialisation of the master lemma to the entry point `getRow`. -/
theorem getRow_spec (args : Args) (pw : ℚ) (hpw : 0 < pw) (hah : 0 < availH args)
    (hih : 0 < args.image_height) (hxs : 0 ≤ args.xspace)
    (imgs : List ImageInfo) (inc : Bool) (hpi : PosImgs imgs) :
    ∃ t, getRow args pw imgs inc = .ok t ∧
      ∀ r imgs2 inc2, t = (some r, imgs2, inc2) →
        (imgs2 ≠ [] → rowWidthOf args r ≤ pw) ∧
        (args.xspace = 0 → PosRow r) := by
  refine getRowAux_master args pw hpw hah hih hxs imgs [] 0 0 none inc hpi ?_ ?_ ?_ ?_
  · intro e he; simp at he
  · simp [sumSW]
  · intro h; exact absurd rfl h
  · intro f hf; cases hf

/-- A row returned while the queue is still nonempty has positive height when
spacing is zero (needed for the page loop: such a page is never dropped). -/
theorem getRow_rowHeight_pos (args : Args) (pw : ℚ) (hpw : 0 < pw) (hah : 0 < availH args)
    (hih : 0 < args.image_height) (hxs0 : args.xspace = 0)
    (imgs : List ImageInfo) (inc : Bool) (hpi : PosImgs imgs)
    {r : List ScaledImageInfo} {imgs2 : List ImageInfo} {inc2 : Bool}
    (hres : getRow args pw imgs inc = .ok (some r, imgs2, inc2)) :
    0 < rowHeight r := by
  obtain ⟨t, hok, hconc⟩ := getRow_spec args pw hpw hah hih (le_of_eq hxs0.symm) imgs inc hpi
  rw [hok] at hres
  have ht : t = (some r, imgs2, inc2) := by
    cases hres; rfl
  have hpr := (hconc r imgs2 inc2 ht).2 hxs0
  have haux : getRowAux args pw imgs [] 0 0 none inc = .ok (some r, imgs2, inc2) := by
    rw [show getRowAux args pw imgs [] 0 0 none inc = getRow args pw imgs inc from rfl, hok, ht]
  obtain ⟨hne, -⟩ := getRowAux_some args pw imgs [] 0 0 none inc haux
  cases r with
  | nil => exact absurd rfl hne
  | cons a l =>
    have ha := hpr a (by simp)
    simpa [rowHeight] using mul_pos ha.2.1 ha.2.2

/-- The images of a list of rows, in placement order. -/
def rowsImgs (rows : List (List ScaledImageInfo)) : List ImageInfo :=
  rows.flatten.map fun i => i.image

theorem rowsImgs_append (rows : List (List ScaledImageInfo)) (r : List ScaledImageInfo) :
    rowsImgs (rows ++ [r]) = rowsImgs rows ++ r.map fun i => i.image := by
  simp [rowsImgs]

/-- The loop of `next_page` always terminates: one more unit of fuel than
the queue length never runs out. -/
theorem nextPageAux_fuel_sufficient (args : Args) (pw : ℚ) (first : Bool) :
    ∀ (fuel : ℕ) (imgs : List ImageInfo) (inc : Bool) (height : ℚ)
      (pageRows : List (List ScaledImageInfo)),
      imgs.length < fuel →
      nextPageAux args pw first fuel imgs inc height pageRows ≠ none := by
  intro fuel
  induction fuel with
  | zero => intro imgs inc height pageRows h; omega
  | succ n ih =>
    intro imgs inc height pageRows h
    rw [nextPageAux]
    cases hq : getRow args pw imgs inc with
    | error e => simp
    | ok t =>
      obtain ⟨o, imgs2, inc2⟩ := t
      cases o with
      | none => simp
      | some r =>
        simp only
        split
        · split <;> simp
        · apply ih
          have := getRow_shrink args pw imgs inc hq
          omega

/-- Conservation through the `next_page` loop: the images of the accumulated
rows followed by the leftover queue are exactly the images of the incoming
accumulated rows followed by the incoming queue (this holds in the overfill
case too, since the overflowing row is appended to the page). -/
theorem nextPageAux_conserve (args : Args) (pw : ℚ) (first : Bool) :
    ∀ (fuel : ℕ) (imgs : List ImageInfo) (inc : Bool) (height : ℚ)
      (pageRows : List (List ScaledImageInfo))
      {rows : List (List ScaledImageInfo)} {h2 : ℚ} {imgs2 : List ImageInfo}
      {inc2 last : Bool},
      nextPageAux args pw first fuel imgs inc height pageRows =
        some (.ok (rows, h2, imgs2, inc2, last)) →
      rowsImgs rows ++ imgs2 = rowsImgs pageRows ++ imgs := by
  intro fuel
  induction fuel with
  | zero => intro imgs inc height pageRows rows h2 imgs2 inc2 last h; cases h
  | succ n ih =>
    intro imgs inc height pageRows rows h2 imgs2 inc2 last h
    rw [nextPageAux] at h
    cases hq : getRow args pw imgs inc with
    | error e => rw [hq] at h; cases h
    | ok t =>
      rw [hq] at h
      obtain ⟨o, imgsM, incM⟩ := t
      cases o with
      | none =>
        obtain ⟨hA, -, hC, -⟩ := getRowAux_none args pw imgs [] 0 0 none inc hq
        subst hA; subst hC
        simp only [Option.some.injEq, Except.ok.injEq, Prod.mk.injEq] at h
        obtain ⟨h1, -, h3, -, -⟩ := h
        subst h1
        simp [← h3]
      | some r =>
        simp only at h
        obtain ⟨-, hsplit⟩ := getRowAux_some args pw imgs [] 0 0 none inc hq
        simp only [List.map_nil, List.nil_append] at hsplit
        split at h
        · split at h
          · simp only [Option.some.injEq, Except.ok.injEq, Prod.mk.injEq] at h
            obtain ⟨h1, h2', h3, h4, h5⟩ := h
            subst h1; subst h3
            rw [rowsImgs_append, List.append_assoc, hsplit]
          · simp only [Option.some.injEq, Except.ok.injEq, Prod.mk.injEq] at h
            obtain ⟨h1, h2', h3, h4, h5⟩ := h
            subst h1; subst h3
            rw [ungetAll, ← List.append_assoc, ← hsplit]
            simp
        · have := ih _ _ _ _ h
          rw [this, rowsImgs_append, List.append_assoc, hsplit]

/-- With overfill disabled and positive parameters, the accumulated page
height stays positive once a row has been accepted, so a nonempty page is
never discarded by the `if height:` test of `next_page`. -/
theorem nextPageAux_pos_height (args : Args) (pw : ℚ) (first : Bool)
    (hof : args.overfill = false) (hpw : 0 < pw) (hah : 0 < availH args)
    (hih : 0 < args.image_height) (hxs0 : args.xspace = 0) (hys : 0 ≤ args.yspace) :
    ∀ (fuel : ℕ) (imgs : List ImageInfo) (inc : Bool) (height : ℚ)
      (pageRows : List (List ScaledImageInfo))
      {rows : List (List ScaledImageInfo)} {h2 : ℚ} {imgs2 : List ImageInfo}
      {inc2 last : Bool},
      PosImgs imgs → 0 ≤ height → (pageRows ≠ [] → 0 < height) →
      nextPageAux args pw first fuel imgs inc height pageRows =
        some (.ok (rows, h2, imgs2, inc2, last)) →
      (rows ≠ [] → 0 < h2) := by
  intro fuel
  induction fuel with
  | zero => intro imgs inc height pageRows rows h2 imgs2 inc2 last _ _ _ h; cases h
  | succ n ih =>
    intro imgs inc height pageRows rows h2 imgs2 inc2 last hpi hge hpos h
    rw [nextPageAux] at h
    cases hq : getRow args pw imgs inc with
    | error e => rw [hq] at h; cases h
    | ok t =>
      rw [hq] at h
      obtain ⟨o, imgsM, incM⟩ := t
      cases o with
      | none =>
        simp only [Option.some.injEq, Except.ok.injEq, Prod.mk.injEq] at h
        obtain ⟨h1, h2', -, -, -⟩ := h
        subst h1
        exact fun hne => h2' ▸ hpos hne
      | some r =>
        simp only at h
        have hrh : 0 < rowHeight r :=
          getRow_rowHeight_pos args pw hpw hah hih hxs0 imgs inc hpi hq
        have hpiM : PosImgs imgsM := by
          obtain ⟨-, hsplit⟩ := getRowAux_some args pw imgs [] 0 0 none inc hq
          simp only [List.map_nil, List.nil_append] at hsplit
          intro i hi
          exact hpi i (by rw [← hsplit]; simp [hi])
        split at h
        · rw [hof] at h
          simp only [Bool.false_eq_true, if_false, Option.some.injEq, Except.ok.injEq,
            Prod.mk.injEq] at h
          obtain ⟨h1, h2', -, -, -⟩ := h
          subst h1
          exact fun hne => h2' ▸ hpos hne
        · have hcond : (!pageRows.isEmpty || !args.overfill || first) = true := by
            rw [hof]; simp
          rw [hcond] at h
          simp only [if_true] at h
          refine ih _ _ _ _ hpiM ?_ ?_ h
          · linarith
          · intro _
            linarith

/-- Placement does not change the sequence of images in a row. -/
theorem placeImgs_images (x xspace y : ℚ) (row : List ScaledImageInfo) :
    (placeImgs x xspace y row).map (fun i => i.image) = row.map fun i => i.image := by
  induction row generalizing x with
  | nil => simp [placeImgs]
  | cons a l ih => simp [placeImgs, ih]

/-- Placement does not change the sequence of images on a page. -/
theorem placeRows_images (args : Args) (pw : ℚ) (pageno : ℤ) (ys : ℚ)
    (y : ℚ) (rows : List (List ScaledImageInfo)) :
    (placeRows args pw pageno ys y rows).map (fun i => i.image) = rowsImgs rows := by
  induction rows generalizing y with
  | nil => simp [placeRows, rowsImgs]
  | cons r rest ih =>
    simp only [placeRows, List.map_append, placeImgs_images, ih, rowsImgs]
    simp [rowsImgs]

/-- With overfill disabled, `_generate_page` succeeds, leaves the queue alone,
and places exactly the images of its rows. -/
theorem generatePage_no_overfill (args : Args) (pw : ℚ)
    (rows : List (List ScaledImageInfo)) (pageno : ℤ) (first : Bool)
    (imgs : List ImageInfo) (hof : args.overfill = false) :
    ∃ pg, generatePage args pw rows pageno first imgs = .ok (pg, imgs) ∧
      pg.map (fun i => i.image) = rowsImgs rows := by
  rw [generatePage, hof]
  simp only [Bool.false_and, if_false, Bool.false_eq_true]
  exact ⟨_, rfl, placeRows_images _ _ _ _ _ _⟩

/-- Conservation through one call of `next_page` with overfill disabled and
positive layout parameters: a produced page holds exactly the images removed
from the queue, and a `None` result leaves the queue untouched. -/
theorem nextPage_spec (args : Args) (pw : ℚ) (pageno : ℤ) (first : Bool)
    (imgs : List ImageInfo) (inc : Bool)
    (hof : args.overfill = false) (hpw : 0 < pw) (hah : 0 < availH args)
    (hih : 0 < args.image_height) (hxs0 : args.xspace = 0) (hys : 0 ≤ args.yspace)
    (hpi : PosImgs imgs) :
    (∀ pg imgs3 inc2, nextPage args pw pageno first imgs inc = .ok (some pg, imgs3, inc2) →
      pg.map (fun i => i.image) ++ imgs3 = imgs)
    ∧ (∀ imgs3 inc2, nextPage args pw pageno first imgs inc = .ok (none, imgs3, inc2) →
      imgs3 = imgs) := by
  rw [nextPage]
  cases haux : nextPageAux args pw first (imgs.length + 1) imgs inc 0 [] with
  | none => exact ⟨(fun pg imgs3 inc2 h => nomatch h), (fun imgs3 inc2 h => nomatch h)⟩
  | some res =>
    cases res with
    | error e => exact ⟨(fun pg imgs3 inc2 h => nomatch h), (fun imgs3 inc2 h => nomatch h)⟩
    | ok t =>
      obtain ⟨rows, h2, imgs2, inc2', last⟩ := t
      have hcons : rowsImgs rows ++ imgs2 = imgs := by
        have h0 := nextPageAux_conserve args pw first _ _ _ _ _ haux
        simpa [rowsImgs] using h0
      simp only
      split
      · rename_i hne
        obtain ⟨pg, hgen, hpg⟩ := generatePage_no_overfill args pw rows pageno first imgs2 hof
        rw [hgen]
        constructor
        · intro pg' imgs3 inc3 h
          simp only [Except.ok.injEq, Prod.mk.injEq, Option.some.injEq] at h
          obtain ⟨h1, h3, -⟩ := h
          subst h1; subst h3
          rw [hpg]
          exact hcons
        · intro imgs3 inc3 h
          simp at h
      · rename_i hzero
        constructor
        · intro pg' imgs3 inc3 h
          simp at h
        · intro imgs3 inc3 h
          simp only [Except.ok.injEq, Prod.mk.injEq] at h
          obtain ⟨-, h3, -⟩ := h
          subst h3
          have hrows : rows = [] := by
            by_contra hne
            have := nextPageAux_pos_height args pw first hof hpw hah hih hxs0 hys
              _ _ _ _ _ hpi (le_refl 0) (fun hx => absurd rfl hx) haux hne
            simp at hzero
            rw [hzero] at this
            exact lt_irrefl 0 this
          rw [hrows] at hcons
          simpa [rowsImgs] using hcons

/-- The index advance of the double-spread test: it moves at least to `i1`. -/
theorem stepDouble_ge (args : Args) (pagenos : List ℤ) (pageno : ℤ) (i1 : ℕ) :
    i1 ≤ (stepDouble args pagenos pageno i1).2.2 := by
  rw [stepDouble]
  split <;> simp

/-- The loop of `get_pages` always terminates: `pagenos.length + 1` fuel
suffices (each iteration either deletes a consumed prefix or advances the
index). -/
theorem getPagesAux_fuel_sufficient (args : Args) :
    ∀ (fuel : ℕ) (imgs : List ImageInfo) (inc first : Bool) (pagenos : List ℤ)
      (i : ℕ) (acc : List PageOut),
      pagenos.length - i < fuel →
      getPagesAux args fuel imgs inc first pagenos i acc ≠ none := by
  intro fuel
  induction fuel with
  | zero => intro imgs inc first pagenos i acc h; omega
  | succ n ih =>
    intro imgs inc first pagenos i acc h
    rw [getPagesAux]
    cases hq : pagenos[i]? with
    | none => simp
    | some pageno =>
      have hi : i < pagenos.length := by
        by_contra hge
        rw [List.getElem?_eq_none (by omega)] at hq
        cases hq
      have hge := stepDouble_ge args pagenos pageno (i + 1)
      simp only
      split
      · cases hnp : nextPage args (stepDouble args pagenos pageno (i + 1)).2.1 pageno first imgs inc with
        | error e => simp
        | ok t =>
          obtain ⟨o, imgs2, inc2⟩ := t
          cases o with
          | some pg =>
            apply ih
            simp only [List.length_drop]
            omega
          | none => simp
      · apply ih
        omega

/-- The images placed on a list of produced pages, in order. -/
def pagesImgs (pgs : List PageOut) : List ImageInfo :=
  (pgs.map fun p => p.placements).flatten.map fun i => i.image

theorem pagesImgs_append (pgs : List PageOut) (p : PageOut) :
    pagesImgs (pgs ++ [p]) = pagesImgs pgs ++ p.placements.map fun i => i.image := by
  simp [pagesImgs]

/-- Conservation through the whole `get_pages` loop with overfill disabled:
the images placed on the produced pages followed by the images left in the
queue are exactly the incoming placed images followed by the incoming
queue. -/
theorem getPagesAux_conserve (args : Args)
    (hof : args.overfill = false) (hpw : ∀ pagenos pageno i1, 0 < (stepDouble args pagenos pageno i1).2.1)
    (hah : 0 < availH args) (hih : 0 < args.image_height)
    (hxs0 : args.xspace = 0) (hys : 0 ≤ args.yspace) :
    ∀ (fuel : ℕ) (imgs : List ImageInfo) (inc first : Bool) (pagenos : List ℤ)
      (i : ℕ) (acc : List PageOut)
      {pgs : List PageOut} {pns2 : List ℤ} {imgs2 : List ImageInfo} {inc2 : Bool},
      PosImgs imgs →
      getPagesAux args fuel imgs inc first pagenos i acc =
        some (.ok (pgs, pns2, imgs2, inc2)) →
      pagesImgs pgs ++ imgs2 = pagesImgs acc ++ imgs := by
  intro fuel
  induction fuel with
  | zero => intro imgs inc first pagenos i acc pgs pns2 imgs2 inc2 _ h; cases h
  | succ n ih =>
    intro imgs inc first pagenos i acc pgs pns2 imgs2 inc2 hpi h
    rw [getPagesAux] at h
    cases hq : pagenos[i]? with
    | none =>
      rw [hq] at h
      simp only [Option.some.injEq, Except.ok.injEq, Prod.mk.injEq] at h
      obtain ⟨h1, -, h3, -⟩ := h
      subst h1; subst h3
      rfl
    | some pageno =>
      rw [hq] at h
      simp only at h
      split at h
      · cases hnp : nextPage args (stepDouble args pagenos pageno (i + 1)).2.1 pageno first imgs inc with
        | error e => rw [hnp] at h; cases h
        | ok t =>
          rw [hnp] at h
          obtain ⟨o, imgsM, incM⟩ := t
          have hspec := nextPage_spec args (stepDouble args pagenos pageno (i + 1)).2.1
            pageno first imgs inc hof (hpw pagenos pageno (i + 1)) hah hih hxs0 hys hpi
          cases o with
          | some pg =>
            have hcons : pg.map (fun i => i.image) ++ imgsM = imgs := hspec.1 pg imgsM incM hnp
            have hpiM : PosImgs imgsM := by
              intro j hj
              exact hpi j (by rw [← hcons]; simp [hj])
            have := ih _ _ _ _ _ _ hpiM h
            rw [this, pagesImgs_append]
            simp only [List.append_assoc, hcons]
          | none =>
            have himgs : imgsM = imgs := hspec.2 imgsM incM hnp
            simp only [Option.some.injEq, Except.ok.injEq, Prod.mk.injEq] at h
            obtain ⟨h1, -, h3, -⟩ := h
            subst h1; subst h3
            rw [himgs]
      · exact ih _ _ _ _ _ _ hpi h

/-- The page widths computed by `get_pages` are among the three margin
formulas; they are positive when those are. -/
theorem stepDouble_pw_pos (args : Args)
    (hw1 : 0 < args.page_width - (args.left + args.right))
    (hw2 : 0 < (args.page_width - args.right) * 2)
    (hw3 : 0 < args.page_width * 2 - (args.left + args.right)) :
    ∀ (pagenos : List ℤ) (pageno : ℤ) (i1 : ℕ),
      0 < (stepDouble args pagenos pageno i1).2.1 := by
  intro pagenos pageno i1
  rw [stepDouble]
  split
  · cases args.mirror
    all_goals (try simp)
    all_goals linarith
  · dsimp only
    linarith

/-- The conservation property of the sequential packing pipeline when overfill
is disabled (amended claim C1): the images placed across all produced pages
followed by the images remaining in the queue are exactly the (possibly
reversed) input image list — so placed + remaining = original count, and every
image occurs in exactly as many placements as it occurred in the input, in
particular at most once for distinct inputs. -/
theorem populatePages_conservation (args : Args) (images : List ImageInfo)
    (pagenos : List ℤ)
    (hof : args.overfill = false) (hxs0 : args.xspace = 0) (hys : 0 ≤ args.yspace)
    (hah : 0 < availH args) (hih : 0 < args.image_height)
    (hw1 : 0 < args.page_width - (args.left + args.right))
    (hw2 : 0 < (args.page_width - args.right) * 2)
    (hw3 : 0 < args.page_width * 2 - (args.left + args.right))
    (hpi : PosImgs images)
    {pgs : List PageOut} {pns2 : List ℤ} {imgs2 : List ImageInfo} {inc2 : Bool}
    (hrun : populatePages args images pagenos = .ok (pgs, pns2, imgs2, inc2)) :
    pagesImgs pgs ++ imgs2 = initImages args images ∧
    (pagesImgs pgs).length + imgs2.length = images.length ∧
    ∀ a : ImageInfo, (pagesImgs pgs).count a + imgs2.count a = images.count a := by
  rw [populatePages, getPages] at hrun
  cases haux : getPagesAux args (pagenos.length + 1) (initImages args images) true true pagenos 0 [] with
  | none => rw [haux] at hrun; cases hrun
  | some r =>
    rw [haux] at hrun
    subst hrun
    have hpi' : PosImgs (initImages args images) := by
      intro i hi
      apply hpi
      rw [initImages] at hi
      split at hi
      · exact List.mem_reverse.mp hi
      · exact hi
    have hcons := getPagesAux_conserve args hof
      (stepDouble_pw_pos args hw1 hw2 hw3) hah hih hxs0 hys
      _ _ _ _ _ _ _ hpi' haux
    have hmain : pagesImgs pgs ++ imgs2 = initImages args images := by
      simpa [pagesImgs] using hcons
    refine ⟨hmain, ?_, ?_⟩
    · have hlen := congrArg List.length hmain
      simp only [List.length_append] at hlen
      rw [hlen]
      rw [initImages]
      split <;> simp
    · intro a
      have hcnt := congrArg (List.count a) hmain
      simp only [List.count_append] at hcnt
      rw [hcnt]
      rw [initImages]
      split <;> simp

theorem stepDouble_simple (args : Args) (hdb : args.double = false)
    (pagenos : List ℤ) (pageno : ℤ) (i1 : ℕ) :
    stepDouble args pagenos pageno i1 =
      (false, args.page_width - (args.left + args.right), i1) := by
  rw [stepDouble, hdb]
  simp

theorem stepAllowed_simple (args : Args) (hdo : args.double_only = false)
    (hoo : args.odd_only = false) (heo : args.even_only = false)
    (pageno : ℤ) (double : Bool) :
    stepAllowed args pageno double = true := by
  rw [stepAllowed, hdo, hoo, heo]
  simp

/-- With the double/parity filters off, the final contents of the mutable
`pagenos` list are the original list with one leading entry deleted per
produced page. -/
theorem getPagesAux_drop (args : Args) (hdb : args.double = false)
    (hdo : args.double_only = false) (hoo : args.odd_only = false)
    (heo : args.even_only = false) :
    ∀ (fuel : ℕ) (imgs : List ImageInfo) (inc first : Bool) (pagenos : List ℤ)
      (acc : List PageOut)
      {pgs : List PageOut} {pns2 : List ℤ} {imgs2 : List ImageInfo} {inc2 : Bool},
      getPagesAux args fuel imgs inc first pagenos 0 acc =
        some (.ok (pgs, pns2, imgs2, inc2)) →
      ∃ t, pgs = acc ++ t ∧ pns2 = pagenos.drop t.length := by
  intro fuel
  induction fuel with
  | zero => intro imgs inc first pagenos acc pgs pns2 imgs2 inc2 h; cases h
  | succ n ih =>
    intro imgs inc first pagenos acc pgs pns2 imgs2 inc2 h
    rw [getPagesAux] at h
    cases hq : pagenos[0]? with
    | none =>
      rw [hq] at h
      simp only [Option.some.injEq, Except.ok.injEq, Prod.mk.injEq] at h
      obtain ⟨h1, h2, -, -⟩ := h
      subst h1; subst h2
      exact ⟨[], by simp, by simp⟩
    | some pageno =>
      rw [hq] at h
      simp only [stepDouble_simple args hdb, stepAllowed_simple args hdo hoo heo,
        if_true] at h
      cases hnp : nextPage args (args.page_width - (args.left + args.right)) pageno first imgs inc with
      | error e => rw [hnp] at h; cases h
      | ok t =>
        rw [hnp] at h
        obtain ⟨o, imgsM, incM⟩ := t
        cases o with
        | some pg =>
          obtain ⟨t2, ht1, ht2⟩ := ih _ _ _ _ _ h
          refine ⟨⟨pg, pageno, false⟩ :: t2, by simp [ht1], ?_⟩
          rw [ht2, List.drop_drop]
          simp [Nat.add_comm]
        | none =>
          simp only [Option.some.injEq, Except.ok.injEq, Prod.mk.injEq] at h
          obtain ⟨h1, h2, -, -⟩ := h
          subst h1; subst h2
          exact ⟨[], by simp, by simp⟩

/-- Claim C10: `get_pages` consumes the caller's `pagenos` list in place — on
return the list holds exactly the original entries minus one deleted leading
entry per produced page — while `get_page_count` runs the same loop on a copy
and only reports the count and the incomplete flag. -/
theorem getPages_pagenos_inplace (args : Args) (imgs : List ImageInfo) (inc : Bool)
    (pagenos : List ℤ)
    (hdb : args.double = false) (hdo : args.double_only = false)
    (hoo : args.odd_only = false) (heo : args.even_only = false)
    {pgs : List PageOut} {pns2 : List ℤ} {imgs2 : List ImageInfo} {inc2 : Bool}
    (hrun : getPages args imgs inc pagenos = .ok (pgs, pns2, imgs2, inc2)) :
    pns2 = pagenos.drop pgs.length ∧
    getPageCount args imgs inc pagenos = .ok (pgs.length, inc2) := by
  constructor
  · rw [getPages] at hrun
    cases haux : getPagesAux args (pagenos.length + 1) imgs inc true pagenos 0 [] with
    | none => rw [haux] at hrun; cases hrun
    | some r =>
      rw [haux] at hrun
      subst hrun
      obtain ⟨t, ht1, ht2⟩ := getPagesAux_drop args hdb hdo hoo heo _ _ _ _ _ _ haux
      simp only [List.nil_append] at ht1
      subst ht1
      exact ht2
  · rw [getPageCount, hrun]

/-- Claim C7: when the page already holds a row and the next row would
overflow the available height, `next_page` with overfill disabled pushes the
row's images back to the head of the queue — restoring the queue exactly, so
the same row is the first row of the next page — and stops; with overfill
enabled it accepts exactly that one overflowing row onto the page and pulls
no further rows. -/
theorem nextPage_overflow (args : Args) (pw : ℚ) (first : Bool) (fuel : ℕ)
    (imgs imgs2 : List ImageInfo) (inc inc2 : Bool) (height : ℚ)
    (pageRows : List (List ScaledImageInfo)) (r : List ScaledImageInfo)
    (hne : pageRows ≠ [])
    (hrow : getRow args pw imgs inc = .ok (some r, imgs2, inc2))
    (hover : availH args < rowHeight r + height) :
    (args.overfill = false →
      nextPageAux args pw first (fuel + 1) imgs inc height pageRows
        = some (.ok (pageRows, height, ungetAll r imgs2, inc2, false))
      ∧ ungetAll r imgs2 = imgs
      ∧ ∃ inc3, getRow args pw imgs inc2 = .ok (some r, imgs2, inc3))
    ∧ (args.overfill = true →
      nextPageAux args pw first (fuel + 1) imgs inc height pageRows
        = some (.ok (pageRows ++ [r], height, imgs2, inc2, false))) := by
  have hcond : (!pageRows.isEmpty && decide (availH args < rowHeight r + height)) = true := by
    cases pageRows with
    | nil => exact absurd rfl hne
    | cons a l => simpa using hover
  have hrest : ungetAll r imgs2 = imgs := by
    obtain ⟨-, hsplit⟩ := getRowAux_some args pw imgs [] 0 0 none inc hrow
    simpa [ungetAll] using hsplit
  constructor
  · intro hof
    refine ⟨?_, hrest, ?_⟩
    · rw [nextPageAux, hrow]
      simp only [hcond, if_true, hof, Bool.false_eq_true, if_false]
    · have hrow' : getRowAux args pw imgs [] 0 0 none inc = .ok (some r, imgs2, inc2) := hrow
      have hproj := getRowAux_inc_indep args pw imgs [] 0 0 none inc inc2
      rw [hrow'] at hproj
      cases hg : getRowAux args pw imgs [] 0 0 none inc2 with
      | error e => rw [hg] at hproj; simp [Except.map] at hproj
      | ok t =>
        rw [hg] at hproj
        obtain ⟨o, i2, ic⟩ := t
        simp only [Except.map, Except.ok.injEq, Prod.mk.injEq] at hproj
        obtain ⟨h1, h2⟩ := hproj
        exact ⟨ic, by rw [show getRow args pw imgs inc2 = getRowAux args pw imgs [] 0 0 none inc2 from rfl, hg, ← h1, ← h2]⟩
  · intro hof
    rw [nextPageAux, hrow]
    simp only [hcond, if_true, hof]

/-- The big-step relation of the `get_pages` loop: `PagesRel args imgs inc
first pagenos i acc out` holds when one run of the loop body, started from the
builder state `(imgs, inc)`, index `i` and accumulator `acc`, can produce
`out`.  Its constructors are in one-to-one correspondence with the branches of
`getPagesAux`; proving the relation functional is the determinism claim. -/
inductive PagesRel (args : Args) :
    List ImageInfo → Bool → Bool → List ℤ → ℕ → List PageOut →
    Except Unit (List PageOut × List ℤ × List ImageInfo × Bool) → Prop where
  | done {imgs : List ImageInfo} {inc first : Bool} {pagenos : List ℤ} {i : ℕ}
      {acc : List PageOut} :
      pagenos[i]? = none →
      PagesRel args imgs inc first pagenos i acc (.ok (acc, pagenos, imgs, inc))
  | skip {imgs : List ImageInfo} {inc first : Bool} {pagenos : List ℤ} {i : ℕ}
      {acc : List PageOut} {pageno : ℤ}
      {out : Except Unit (List PageOut × List ℤ × List ImageInfo × Bool)} :
      pagenos[i]? = some pageno →
      stepAllowed args pageno (stepDouble args pagenos pageno (i + 1)).1 = false →
      PagesRel args imgs inc first pagenos (stepDouble args pagenos pageno (i + 1)).2.2 acc out →
      PagesRel args imgs inc first pagenos i acc out
  | fail {imgs : List ImageInfo} {inc first : Bool} {pagenos : List ℤ} {i : ℕ}
      {acc : List PageOut} {pageno : ℤ} {e : Unit} :
      pagenos[i]? = some pageno →
      stepAllowed args pageno (stepDouble args pagenos pageno (i + 1)).1 = true →
      nextPage args (stepDouble args pagenos pageno (i + 1)).2.1 pageno first imgs inc = .error e →
      PagesRel args imgs inc first pagenos i acc (.error e)
  | page {imgs : List ImageInfo} {inc first : Bool} {pagenos : List ℤ} {i : ℕ}
      {acc : List PageOut} {pageno : ℤ} {pg : List ScaledImageInfo}
      {imgs2 : List ImageInfo} {inc2 : Bool}
      {out : Except Unit (List PageOut × List ℤ × List ImageInfo × Bool)} :
      pagenos[i]? = some pageno →
      stepAllowed args pageno (stepDouble args pagenos pageno (i + 1)).1 = true →
      nextPage args (stepDouble args pagenos pageno (i + 1)).2.1 pageno first imgs inc = .ok (some pg, imgs2, inc2) →
      PagesRel args imgs2 inc2 false (pagenos.drop (stepDouble args pagenos pageno (i + 1)).2.2) 0
        (acc ++ [⟨pg, pageno, (stepDouble args pagenos pageno (i + 1)).1⟩]) out →
      PagesRel args imgs inc first pagenos i acc out
  | stop {imgs : List ImageInfo} {inc first : Bool} {pagenos : List ℤ} {i : ℕ}
      {acc : List PageOut} {pageno : ℤ} {imgs2 : List ImageInfo} {inc2 : Bool} :
      pagenos[i]? = some pageno →
      stepAllowed args pageno (stepDouble args pagenos pageno (i + 1)).1 = true →
      nextPage args (stepDouble args pagenos pageno (i + 1)).2.1 pageno first imgs inc = .ok (none, imgs2, inc2) →
      PagesRel args imgs inc first pagenos i acc (.ok (acc, pagenos, imgs2, inc2))

/-- The loop relation is functional: from one starting state it can reach only
one outcome. -/
theorem pagesRel_det (args : Args) {imgs : List ImageInfo} {inc first : Bool}
    {pagenos : List ℤ} {i : ℕ} {acc : List PageOut}
    {out1 out2 : Except Unit (List PageOut × List ℤ × List ImageInfo × Bool)}
    (h1 : PagesRel args imgs inc first pagenos i acc out1)
    (h2 : PagesRel args imgs inc first pagenos i acc out2) : out1 = out2 := by
  induction h1 generalizing out2 with
  | done hnone =>
    cases h2 <;> simp_all
  | skip hsome hal hrec ih =>
    cases h2 with
    | done hnone => simp_all
    | skip hsome2 hal2 hrec2 =>
      rw [hsome] at hsome2
      cases hsome2
      exact ih hrec2
    | fail hsome2 hal2 _ => rw [hsome] at hsome2; cases hsome2; simp_all
    | page hsome2 hal2 _ _ => rw [hsome] at hsome2; cases hsome2; simp_all
    | stop hsome2 hal2 _ => rw [hsome] at hsome2; cases hsome2; simp_all
  | fail hsome hal hnp =>
    cases h2 with
    | done hnone => simp_all
    | skip hsome2 hal2 _ => rw [hsome] at hsome2; cases hsome2; simp_all
    | fail hsome2 hal2 hnp2 => simp
    | page hsome2 hal2 hnp2 _ =>
      rw [hsome] at hsome2; cases hsome2
      rw [hnp] at hnp2
      cases hnp2
    | stop hsome2 hal2 hnp2 =>
      rw [hsome] at hsome2; cases hsome2
      rw [hnp] at hnp2
      cases hnp2
  | page hsome hal hnp hrec ih =>
    cases h2 with
    | done hnone => simp_all
    | skip hsome2 hal2 _ => rw [hsome] at hsome2; cases hsome2; simp_all
    | fail hsome2 hal2 hnp2 =>
      rw [hsome] at hsome2; cases hsome2
      rw [hnp] at hnp2
      cases hnp2
    | page hsome2 hal2 hnp2 hrec2 =>
      rw [hsome] at hsome2; cases hsome2
      rw [hnp] at hnp2
      simp only [Except.ok.injEq, Prod.mk.injEq, Option.some.injEq] at hnp2
      obtain ⟨h1', h2', h3'⟩ := hnp2
      subst h1'; subst h2'; subst h3'
      exact ih hrec2
    | stop hsome2 hal2 hnp2 =>
      rw [hsome] at hsome2; cases hsome2
      rw [hnp] at hnp2
      simp at hnp2
  | stop hsome hal hnp =>
    cases h2 with
    | done hnone => simp_all
    | skip hsome2 hal2 _ => rw [hsome] at hsome2; cases hsome2; simp_all
    | fail hsome2 hal2 hnp2 =>
      rw [hsome] at hsome2; cases hsome2
      rw [hnp] at hnp2
      cases hnp2
    | page hsome2 hal2 hnp2 _ =>
      rw [hsome] at hsome2; cases hsome2
      rw [hnp] at hnp2
      simp at hnp2
    | stop hsome2 hal2 hnp2 =>
      rw [hsome] at hsome2; cases hsome2
      rw [hnp] at hnp2
      simp_all

/-- The function `getPagesAux` realises the loop relation: every computed
outcome is a `PagesRel` outcome. -/
theorem getPagesAux_rel (args : Args) :
    ∀ (fuel : ℕ) (imgs : List ImageInfo) (inc first : Bool) (pagenos : List ℤ)
      (i : ℕ) (acc : List PageOut)
      {out : Except Unit (List PageOut × List ℤ × List ImageInfo × Bool)},
      getPagesAux args fuel imgs inc first pagenos i acc = some out →
      PagesRel args imgs inc first pagenos i acc out := by
  intro fuel
  induction fuel with
  | zero => intro imgs inc first pagenos i acc out h; cases h
  | succ n ih =>
    intro imgs inc first pagenos i acc out h
    rw [getPagesAux] at h
    cases hq : pagenos[i]? with
    | none =>
      rw [hq] at h
      simp only [Option.some.injEq] at h
      subst h
      exact .done hq
    | some pageno =>
      rw [hq] at h
      simp only at h
      split at h
      · rename_i hal
        cases hnp : nextPage args (stepDouble args pagenos pageno (i + 1)).2.1 pageno first imgs inc with
        | error e =>
          rw [hnp] at h
          simp only [Option.some.injEq] at h
          subst h
          exact .fail hq hal hnp
        | ok t =>
          rw [hnp] at h
          obtain ⟨o, imgs2, inc2⟩ := t
          cases o with
          | some pg => exact .page hq hal hnp (ih _ _ _ _ _ _ h)
          | none =>
            simp only [Option.some.injEq] at h
            subst h
            exact .stop hq hal hnp
      · rename_i hal
        exact .skip hq (by simpa using hal) (ih _ _ _ _ _ _ h)

/-- A single image with positive dimensions never raises in `_get_row` and is
returned as a one-image row with the whole queue consumed. -/
theorem getRow_single (args : Args) (pw : ℚ) (img : ImageInfo) (inc : Bool)
    (hpw : 0 < pw) (hah : 0 < availH args) (hih : 0 < args.image_height)
    (hxs : 0 ≤ args.xspace) (hw : 0 < img.width) (hh : 0 < img.height) :
    ∃ e inc2, getRow args pw [img] inc = .ok (some [e], [], inc2) ∧ e.image = img := by
  have hpi : PosImgs [img] := by
    intro i hi
    simp only [List.mem_singleton] at hi
    subst hi
    exact ⟨hw, hh⟩
  obtain ⟨t, hok, -⟩ := getRow_spec args pw hpw hah hih hxs [img] inc hpi
  obtain ⟨o, imgs2, inc2⟩ := t
  cases o with
  | none =>
    obtain ⟨habs, -, -, -⟩ := getRowAux_none args pw [img] [] 0 0 none inc hok
    cases habs
  | some r =>
    obtain ⟨hne, hsplit⟩ := getRowAux_some args pw [img] [] 0 0 none inc hok
    simp only [List.map_nil, List.nil_append] at hsplit
    cases r with
    | nil => exact absurd rfl hne
    | cons e l =>
      cases l with
      | nil =>
        simp only [List.map_cons, List.map_nil, List.cons_append, List.nil_append,
          List.cons.injEq] at hsplit
        obtain ⟨he, h2⟩ := hsplit
        subst h2
        exact ⟨e, inc2, hok, he⟩
      | cons e2 l2 =>
        exfalso
        have := congrArg List.length hsplit
        simp at this

/-- A builder holding exactly one positive-dimension image produces exactly
one page holding that image and exhausts its queue (overfill off, zero
horizontal spacing). -/
theorem nextPage_single (args : Args) (pw : ℚ) (pageno : ℤ) (first : Bool)
    (img : ImageInfo) (inc : Bool)
    (hof : args.overfill = false) (hpw : 0 < pw) (hah : 0 < availH args)
    (hih : 0 < args.image_height) (hxs0 : args.xspace = 0) (hys : 0 ≤ args.yspace)
    (hw : 0 < img.width) (hh : 0 < img.height) :
    ∃ pg inc2, nextPage args pw pageno first [img] inc = .ok (some pg, [], inc2) := by
  obtain ⟨e, incM, hrow, he⟩ := getRow_single args pw img inc hpw hah hih
    (le_of_eq hxs0.symm) hw hh
  have hrh : 0 < rowHeight [e] := by
    apply getRow_rowHeight_pos args pw hpw hah hih hxs0 [img] inc ?_ hrow
    intro i hi
    simp only [List.mem_singleton] at hi
    subst hi
    exact ⟨hw, hh⟩
  have hempty : getRow args pw [] incM = .ok (none, [], incM) := by
    rw [getRow, getRowAux]
  have haux : ∀ fuel : ℕ, nextPageAux args pw first (fuel + 1 + 1) [img] inc 0 [] =
      some (.ok ([[e]], 0 + rowHeight [e] + args.yspace, [], incM, true)) := by
    intro fuel
    rw [nextPageAux, hrow]
    simp only [hof, List.isEmpty_nil, Bool.not_true, Bool.not_false, Bool.false_and,
      Bool.false_or, Bool.true_or, Bool.false_eq_true, if_false, if_true, List.nil_append]
    rw [nextPageAux, hempty]
  have haux1 : nextPageAux args pw first ([img].length + 1) [img] inc 0 [] =
      some (.ok ([[e]], 0 + rowHeight [e] + args.yspace, [], incM, true)) := by
    have h0 := haux 0
    simpa using h0
  rw [nextPage, haux1]
  try dsimp only
  have hne : (0 + rowHeight [e] + args.yspace) ≠ 0 := by
    have h1 : 0 < 0 + rowHeight [e] + args.yspace := by linarith
    exact ne_of_gt h1
  rw [if_pos hne]
  obtain ⟨pg, hgen, -⟩ := generatePage_no_overfill args pw [[e]] pageno first [] hof
  rw [hgen]
  exact ⟨pg, incM, rfl⟩

/-- With one positive-dimension image, one destination page, and the plain
flag settings, `_try_it` always reports exactly one page — whatever the
target image height is.  This is the engine of the optimizer divergence. -/
theorem tryIt_single (args : Args) (img : ImageInfo) (pageno : ℤ)
    (hdb : args.double = false) (hdo : args.double_only = false)
    (hoo : args.odd_only = false) (heo : args.even_only = false)
    (hof : args.overfill = false) (hxs0 : args.xspace = 0) (hys : 0 ≤ args.yspace)
    (hah : 0 < availH args) (hih : 0 < args.image_height)
    (hpw : 0 < args.page_width - (args.left + args.right))
    (hw : 0 < img.width) (hh : 0 < img.height) :
    ∃ inc2, tryIt args [img] [pageno] = .ok (1, inc2) := by
  obtain ⟨pg, inc2, hnp⟩ := nextPage_single args (args.page_width - (args.left + args.right))
    pageno true img true hof hpw hah hih hxs0 hys hw hh
  have hinit : initImages args [img] = [img] := by
    rw [initImages]
    split <;> rfl
  have haux : ∀ fuel : ℕ, getPagesAux args (fuel + 1 + 1) [img] true true [pageno] 0 [] =
      some (.ok ([⟨pg, pageno, false⟩], [], [], inc2)) := by
    intro fuel
    rw [getPagesAux]
    have hq : [pageno][0]? = some pageno := rfl
    rw [hq]
    simp only [stepDouble_simple args hdb, stepAllowed_simple args hdo hoo heo, if_true]
    rw [hnp]
    rfl
  have haux1 : getPagesAux args ([pageno].length + 1) [img] true true [pageno] 0 [] =
      some (.ok ([⟨pg, pageno, false⟩], [], [], inc2)) := by
    have h0 := haux 0
    simpa using h0
  refine ⟨inc2, ?_⟩
  rw [tryIt, hinit, getPageCount, getPages, haux1]
  rfl

/-- The fine phase of `populate_single_page` never exits on a single image
with target count 1: the guard `page_count <= count` holds at every probed
height, so the loop consumes any amount of fuel.  (The source has no
iteration cap: this loop is `while page_count <= count` verbatim.) -/
theorem fineLoop_diverges (args : Args) (img : ImageInfo) (pageno : ℤ)
    (hdb : args.double = false) (hdo : args.double_only = false)
    (hoo : args.odd_only = false) (heo : args.even_only = false)
    (hof : args.overfill = false) (hxs0 : args.xspace = 0) (hys : 0 ≤ args.yspace)
    (hah : 0 < availH args)
    (hpw : 0 < args.page_width - (args.left + args.right))
    (hw : 0 < img.width) (hh : 0 < img.height) :
    ∀ (fuel : ℕ) (h best perfect : ℚ) (inc : Bool), 0 < h →
      fineLoop args 1 [img] [pageno] fuel h best perfect 1 inc = none := by
  intro fuel
  induction fuel with
  | zero => intro h best perfect inc hpos; rfl
  | succ n ih =>
    intro h best perfect inc hpos
    rw [fineLoop]
    rw [if_pos (le_refl 1)]
    try dsimp only
    obtain ⟨inc2, ht2⟩ := tryIt_single { args with image_height := h + 1 } img pageno
      hdb hdo hoo heo hof hxs0 hys hah (show (0:ℚ) < h + 1 by linarith) hpw hw hh
    rw [ht2]
    exact ih _ _ _ _ (by linarith)

/-- The whole optimizer search diverges on a single image with target count 1:
whatever fuel it is given runs out.  This is the non-termination of
`populate_single_page` on that input. -/
theorem optSearch_diverges (args : Args) (img : ImageInfo) (pageno : ℤ)
    (hdb : args.double = false) (hdo : args.double_only = false)
    (hoo : args.odd_only = false) (heo : args.even_only = false)
    (hof : args.overfill = false) (hxs0 : args.xspace = 0) (hys : 0 ≤ args.yspace)
    (hah : 0 < availH args) (hih : 0 < args.image_height)
    (hpw : 0 < args.page_width - (args.left + args.right))
    (hw : 0 < img.width) (hh : 0 < img.height) :
    ∀ fuel : ℕ, optSearch 1 [img] [pageno] fuel args = none := by
  intro fuel
  cases fuel with
  | zero => rfl
  | succ n =>
    obtain ⟨inc0, ht⟩ := tryIt_single args img pageno hdb hdo hoo heo hof hxs0 hys
      hah hih hpw hw hh
    rw [optSearch, ht]
    cases n with
    | zero => rfl
    | succ m =>
      have e1 : coarseUp args 1 [img] [pageno] (m + 1) args.image_height 1 inc0 =
          some (.ok (args.image_height, 1, inc0)) := rfl
      have hfl := fineLoop_diverges args img pageno hdb hdo hoo heo hof hxs0 hys hah hpw
        hw hh (m + 1) (args.image_height / (101/100)) (args.image_height / (101/100)) 0 inc0
        (by positivity)
      simp [e1, hfl]

/-- Concrete argument namespace used by the concrete claim instances: a
100×100 page with zero margins and spacing, the option defaults of
`parse_args` for the thresholds, and all flags off. -/
def baseArgs : Args :=
  { page_width := 100, page_height := 100, top := 0, bottom := 0, left := 0, right := 0,
    xspace := 0, yspace := 0, image_height := 100, pano_threshold := 3,
    aspect_threshold := 66/100,
    mirror := false, xcenter := false, ycenter := false, xspread := false, yspread := false,
    scale := false, overfill := false, double := false, double_only := false,
    odd_only := false, even_only := false, mix_aspect := false, reverse := false,
    smart := false, random := "" }

/-- A 100×100 test image. -/
def imgX : ImageInfo := ⟨0, 100, 100⟩

/-- A second 100×100 test image. -/
def imgY : ImageInfo := ⟨1, 100, 100⟩

/-- The spec's conservation check, modelled from the spec's words
(section 8, claim C1): placed images plus unconsumed images must equal the
original image count.  An erroring run is not a completed run and passes
vacuously. -/
def conservesImages (args : Args) (images : List ImageInfo) (pagenos : List ℤ) : Bool :=
  match populatePages args images pagenos with
  | .error _ => true
  | .ok (pgs, _, imgs2, _) => (pagesImgs pgs).length + imgs2.length == images.length

/-- Claim C1 counterexample: with overfill enabled, `_generate_page` pushes
the overflowing page's last two rows back onto the queue after having placed
them, so the images of the produced page are also still in the queue: placed
(2) + remaining (2) ≠ original (2). -/
theorem C1_counterexample :
    conservesImages { baseArgs with page_height := 50, image_height := 60, overfill := true }
      [imgX, imgY] [1] = false := by
  with_unfolding_all decide

/-- Claim C1 witness instance: a concrete non-overfill run satisfying the
hypotheses of `populatePages_conservation`, whose single placement plus empty
leftover queue equal the one-image input. -/
theorem C1_witness :
    pagesImgs [⟨[⟨imgX, 3/5, 0, 0⟩], 1, false⟩] ++ [] =
      initImages { baseArgs with image_height := 60 } [imgX] :=
  (populatePages_conservation { baseArgs with image_height := 60 } [imgX] [1]
    rfl rfl (by with_unfolding_all decide) (by with_unfolding_all decide)
    (by with_unfolding_all decide) (by with_unfolding_all decide)
    (by with_unfolding_all decide) (by with_unfolding_all decide)
    (by with_unfolding_all decide)
    (show populatePages { baseArgs with image_height := 60 } [imgX] [1] =
        .ok ([⟨[⟨imgX, 3/5, 0, 0⟩], 1, false⟩], [], [], true) by
      with_unfolding_all rfl)).1

/-- Claim C2 (code bug): the optimizer `populate_single_page` has no iteration
cap at all; on a single 100×100 image with `--scale-pages 1` on a 100×100
page its fine phase guard `page_count <= count` holds at every probed height
(the page count is always 1), so the search exhausts any amount of fuel: it
never terminates. -/
theorem C2_optimizer_diverges :
    ∀ fuel : ℕ, optSearch 1 [imgX] [1] fuel baseArgs = none :=
  optSearch_diverges baseArgs imgX 1 rfl rfl rfl rfl rfl rfl (by with_unfolding_all decide)
    (by with_unfolding_all decide) (by with_unfolding_all decide) (by with_unfolding_all decide) (by with_unfolding_all decide) (by with_unfolding_all decide)

/-- Claim C3 counterexample: a zero-height image makes `_get_row` raise
ZeroDivisionError at `aspect = float(image.width)/image.height` — the Row
Packer does not place malformed zero-area images. -/
theorem C3_counterexample :
    getRow baseArgs 100 [⟨0, 100, 0⟩] true = .error () := by
  decide

/-- Claim C3 (amended): for an image with positive width and height — however
extreme its aspect ratio — `_get_row` never raises, and a queue holding just
that image yields a row containing exactly that image alone, with the queue
consumed (the clamping path handles the oversized cases). -/
theorem C3_single_image_safe (args : Args) (pw : ℚ) (img : ImageInfo) (inc : Bool)
    (hpw : 0 < pw) (hah : 0 < availH args) (hih : 0 < args.image_height)
    (hxs : 0 ≤ args.xspace) (hw : 0 < img.width) (hh : 0 < img.height) :
    ∃ e inc2, getRow args pw [img] inc = .ok (some [e], [], inc2) ∧ e.image = img :=
  getRow_single args pw img inc hpw hah hih hxs hw hh

/-- Claim C3 witness: the amended theorem applied to a concrete image. -/
theorem C3_witness :
    (0 : ℚ) < 100 ∧
    ∃ e inc2, getRow baseArgs 100 [imgX] true = .ok (some [e], [], inc2) ∧ e.image = imgX :=
  ⟨by norm_num,
   C3_single_image_safe baseArgs 100 imgX true (by with_unfolding_all decide) (by with_unfolding_all decide) (by with_unfolding_all decide)
     (by with_unfolding_all decide) (by with_unfolding_all decide) (by with_unfolding_all decide)⟩

/-- Claim C4: every row returned by `_get_row` through a row break (the queue
is still nonempty — i.e. a non-final row, including the single-oversized case,
which is clamped within the page) satisfies the row-width bound: the sum of
its scaled widths plus spacing times (n−1) is at most the available width
(so in particular at most availableWidth + ε for every ε ≥ 0). -/
theorem C4_row_width_bound (args : Args) (pw : ℚ) (imgs : List ImageInfo) (inc : Bool)
    (r : List ScaledImageInfo) (imgs2 : List ImageInfo) (inc2 : Bool)
    (hpw : 0 < pw) (hah : 0 < availH args) (hih : 0 < args.image_height)
    (hxs : 0 ≤ args.xspace) (hpi : PosImgs imgs)
    (hrun : getRow args pw imgs inc = .ok (some r, imgs2, inc2))
    (hne : imgs2 ≠ []) : rowWidthOf args r ≤ pw := by
  obtain ⟨t, hok, hconc⟩ := getRow_spec args pw hpw hah hih hxs imgs inc hpi
  rw [hok] at hrun
  cases hrun
  exact (hconc r imgs2 inc2 rfl).1 hne

/-- Claim C4 witness: a concrete two-image queue whose first row breaks with
one image left over; its width 60 fits the page width 100. -/
theorem C4_witness :
    PosImgs [imgX, imgY] ∧
    rowWidthOf { baseArgs with image_height := 60 } [⟨imgX, 3/5, 0, 0⟩] ≤ 100 :=
  ⟨by decide,
   C4_row_width_bound { baseArgs with image_height := 60 } 100 [imgX, imgY] true
     [⟨imgX, 3/5, 0, 0⟩] [imgY] true (by with_unfolding_all decide) (by with_unfolding_all decide) (by with_unfolding_all decide) (by with_unfolding_all decide)
     (by with_unfolding_all decide) (by with_unfolding_all decide) (by with_unfolding_all decide)⟩

/-- Claim C5 (code bug): `_get_row` compares the aspect deviation against the
hard-coded literal 0.66, not against the parsed `--aspect-threshold` option.
With the threshold configured to 0.9, an image whose aspect ratio is 0.7 of
the row's first image — a deviation beyond the configured threshold, so the
claim says the row must close before it — is kept in the same row, because
0.7 is not below the literal 0.66. -/
theorem C5_threshold_ignored :
    ({ baseArgs with image_height := 10, aspect_threshold := 9/10 } : Args).aspect_threshold = 9/10
    ∧ (7 : ℚ)/10 < 9/10
    ∧ ¬ ((7 : ℚ)/10 < 66/100)
    ∧ getRow { baseArgs with image_height := 10, aspect_threshold := 9/10 } 100
        [⟨0, 100, 100⟩, ⟨1, 70, 100⟩] true
      = .ok (some [⟨⟨0, 100, 100⟩, 1/10, 0, 0⟩, ⟨⟨1, 70, 100⟩, 1/10, 0, 0⟩], [], true) := by
  with_unfolding_all decide

/-- Claim C6 counterexample: `scaleRowToFill` (`args.scale`) is off, yet the
final partial row is still rescaled by the fill factor 10/9 (the images enter
the row at scale 45/100 and come out at 1/2): the source's leftover branch
never consults `args.scale`. -/
theorem C6_counterexample :
    ({ baseArgs with image_height := 45 } : Args).scale = false
    ∧ getRow { baseArgs with image_height := 45 } 100 [imgX, imgY] true
      = .ok (some [⟨imgX, 1/2, 0, 0⟩, ⟨imgY, 1/2, 0, 0⟩], [], false)
    ∧ (1 : ℚ)/2 ≠ 45/100 := by
  with_unfolding_all decide

/-- Claim C6 (amended): when the queue empties mid-row, the partial row is
returned with the fill scale applied exactly when that scale is at most 1.2 —
regardless of whether `scaleRowToFill` is requested — and otherwise the row
is returned unscaled and the layout is marked incomplete.  (This is the
`imgs = []` equation of `_get_row`'s loop.) -/
theorem C6_leftover_fill (args : Args) (pw : ℚ) (row : List ScaledImageInfo)
    (rw la : ℚ) (fi : Option ImageInfo) (inc : Bool)
    (hne : row ≠ []) (hden : rw - (row.length : ℚ) * args.xspace ≠ 0) :
    getRowAux args pw [] row rw la fi inc =
      (if (6 : ℚ)/5 < (pw - (row.length : ℚ) * args.xspace) / (rw - (row.length : ℚ) * args.xspace) then
        .ok (some (scaleRow row 1), [], true)
      else
        .ok (some (scaleRow row ((pw - (row.length : ℚ) * args.xspace) / (rw - (row.length : ℚ) * args.xspace))), [], false)) := by
  cases row with
  | nil => exact absurd rfl hne
  | cons a l =>
    rw [getRowAux, rowScale?, qdiv?_ok _ _ hden]

/-- Claim C6 witness: a concrete partial row of accumulated width 90 on a
100-wide page; the fill scale 10/9 ≤ 1.2 is applied and the layout is marked
complete, although `baseArgs.scale` is false. -/
theorem C6_witness :
    getRowAux baseArgs 100 [] [⟨imgX, 45/100, 0, 0⟩, ⟨imgY, 45/100, 0, 0⟩] 90 1 none true
      = .ok (some (scaleRow [⟨imgX, 45/100, 0, 0⟩, ⟨imgY, 45/100, 0, 0⟩] (10/9)), [], false) := by
  rw [C6_leftover_fill baseArgs 100 [⟨imgX, 45/100, 0, 0⟩, ⟨imgY, 45/100, 0, 0⟩] 90 1 none true
    (by with_unfolding_all decide) (by with_unfolding_all decide)]
  with_unfolding_all decide

/-- Claim C7 witness: a concrete page already holding one 60-tall row on a
50-tall page; the next 60-tall row overflows, and with overfill disabled the
loop returns the page as is with the row's image back at the queue head. -/
theorem C7_witness :
    nextPageAux { baseArgs with page_height := 50, image_height := 60 } 100 true 1
        [imgY] true 60 [[⟨imgX, 3/5, 0, 0⟩]]
      = some (.ok ([[⟨imgX, 3/5, 0, 0⟩]], 60,
          ungetAll [⟨imgY, 3/5, 0, 0⟩] [], true, false)) :=
  ((nextPage_overflow { baseArgs with page_height := 50, image_height := 60 } 100 true 0
    [imgY] [] true true 60 [[⟨imgX, 3/5, 0, 0⟩]] [⟨imgY, 3/5, 0, 0⟩]
    (by with_unfolding_all decide) (by with_unfolding_all decide) (by with_unfolding_all decide)).1 rfl).1

/-- Fixed arguments of the C8 counterexample: a 100-wide, 5-tall page with no
margins, a panorama threshold of 100 (never triggered) and `--mix-aspect` on,
parameterised over the target image height. -/
def argsC8 (h : ℚ) : Args :=
  { baseArgs with page_height := 5, pano_threshold := 100, mix_aspect := true, image_height := h }

/-- Page count of a `get_page_count` run of the C8 scenario at target image
height `h` on a 1000×100 and a 200×100 image with three destination pages. -/
def pageCountC8 (h : ℚ) : ℕ :=
  match getPageCount (argsC8 h) [⟨0, 1000, 100⟩, ⟨1, 200, 100⟩] true [1, 2, 3] with
  | .error _ => 0
  | .ok (n, _) => n

set_option maxHeartbeats 2000000 in
/-- Claim C8 counterexample: increasing the target image height from 9 to 20
DECREASES the page count from 2 to 1 — at height 9 the two preferred widths
90 + 18 exceed the page width so the row breaks and each image gets a page,
while at height 20 the first image alone already overflows the width, is
clamped down to the page by `_get_row`'s single-image branch, and the second
image then joins the resulting short row.  Monotonicity fails. -/
theorem C8_counterexample :
    (9 : ℚ) ≤ 20 ∧ ¬ (pageCountC8 9 ≤ pageCountC8 20) ∧
    pageCountC8 9 = 2 ∧ pageCountC8 20 = 1 := by
  with_unfolding_all decide

/-- Fixed arguments of the C8 amended claim's scenario: a 400×500 page with
20-unit margins and 10-unit spacing, the flag defaults. -/
def argsE : Args :=
  { baseArgs with page_width := 400, page_height := 500, top := 20, bottom := 20, left := 20, right := 20, xspace := 10, yspace := 10 }

/-- Ten equal 300×200 landscape images. -/
def imgsE : List ImageInfo := (List.range 10).map fun k => ⟨k, 300, 200⟩

/-- Page count of a `get_page_count` run of the scenario `argsE`/`imgsE` at
target image height `h`, with ten destination pages. -/
def pageCountE (h : ℚ) : ℕ :=
  match getPageCount { argsE with image_height := h } imgsE true
      [1, 2, 3, 4, 5, 6, 7, 8, 9, 10] with
  | .error _ => 0
  | .ok (n, _) => n

set_option maxHeartbeats 8000000 in
/-- Claim C8 (amended): monotonicity of the page count in the target image
height is not a law of the program (see the counterexample), but it does hold
on well-behaved scenarios: over the whole unit grid of heights 50,…,150 of
the `argsE`/`imgsE` scenario each step's page count is ≤ the next one's (the
counts climb from 1 at height 50 to 5 at height 150). -/
theorem C8_monotone_grid :
    ((List.range 100).all fun k =>
      decide (pageCountE (50 + (k : ℚ)) ≤ pageCountE (50 + (k : ℚ) + 1))) = true := by
  with_unfolding_all decide

/-- Claim C9: the packing pipeline is deterministic — any two complete runs of
`get_pages` (described by the run relation `PagesRel`) from the same images in
the same order and the same configuration produce the same output: the pages
with their placements, the leftover destination list, the leftover queue and
the incomplete flag all coincide.  (The code consults no clock, no ambient
randomness and no external state: `PagesRel` relates a start state to at most
one outcome.) -/
theorem C9_run_deterministic (args : Args) (images : List ImageInfo)
    (pagenos : List ℤ)
    {out1 out2 : Except Unit (List PageOut × List ℤ × List ImageInfo × Bool)}
    (h1 : PagesRel args (initImages args images) true true pagenos 0 [] out1)
    (h2 : PagesRel args (initImages args images) true true pagenos 0 [] out2) :
    out1 = out2 :=
  pagesRel_det args h1 h2

/-- Claim C9 witness: two concrete runs of the one-image pipeline, reaching
the run relation through different fuel amounts, are forced to the same
output by `C9_run_deterministic`. -/
theorem C9_witness :
    (Except.ok ([⟨[⟨imgX, 3/5, 0, 0⟩], 1, false⟩], [], [], true) :
      Except Unit (List PageOut × List ℤ × List ImageInfo × Bool)) =
    .ok ([⟨[⟨imgX, 3/5, 0, 0⟩], 1, false⟩], [], [], true) :=
  C9_run_deterministic { baseArgs with image_height := 60 } [imgX] [1]
    (getPagesAux_rel { baseArgs with image_height := 60 } 2
      (initImages { baseArgs with image_height := 60 } [imgX]) true true [1] 0 []
      (by with_unfolding_all rfl))
    (getPagesAux_rel { baseArgs with image_height := 60 } 3
      (initImages { baseArgs with image_height := 60 } [imgX]) true true [1] 0 []
      (by with_unfolding_all rfl))

/-- Claim C10 witness: a three-destination run placing two images; after the
run the destination list left over is `[3]` — exactly `[1, 2, 3]` with the
two produced page numbers dropped from the front — and `get_page_count` on
the same inputs answers from its private copy without touching this list. -/
theorem C10_witness :
    [(3 : ℤ)] = ([1, 2, 3] : List ℤ).drop
      ([(⟨[⟨imgX, 3/5, 0, 0⟩], 1, false⟩ : PageOut), ⟨[⟨imgY, 3/5, 0, 0⟩], 2, false⟩].length) ∧
    getPageCount { baseArgs with image_height := 60 } [imgX, imgY] true [1, 2, 3] =
      .ok ([(⟨[⟨imgX, 3/5, 0, 0⟩], 1, false⟩ : PageOut), ⟨[⟨imgY, 3/5, 0, 0⟩], 2, false⟩].length, true) :=
  getPages_pagenos_inplace { baseArgs with image_height := 60 } [imgX, imgY] true [1, 2, 3]
    rfl rfl rfl rfl
    (show getPages { baseArgs with image_height := 60 } [imgX, imgY] true [1, 2, 3] =
        .ok ([⟨[⟨imgX, 3/5, 0, 0⟩], 1, false⟩, ⟨[⟨imgY, 3/5, 0, 0⟩], 2, false⟩], [3], [], true) by
      with_unfolding_all rfl)
